import Mathlib

/-!
Verification of the document ingestion pipeline of
`src/app/api/process-document/route.ts` (ClaudeDesk).

The TypeScript route is shallowly embedded: every pure computation of the
pipeline (adaptive configuration, content classification decision rule,
semantic chunking, batch partitioning and index assignment, retry control
flow, and the orchestrator's state transitions) is translated into
executable Lean definitions.  External effects (the cl100k tokenizer of
`gpt-tokenizer`, the OpenAI embedding API, the Supabase writes) are taken
as explicit function parameters or environment fields; JavaScript numbers
that the route only ever uses as non-negative integers become `Nat`, and
the floating-point ratios of the content analyzer become `ℚ`.
-/

/-- The four content classifications of `ContentAnalyzer.analyzeContent`. -/
inductive ContentType where
  | CODE
  | NATURAL_LANGUAGE
  | MIXED
  | UNKNOWN
deriving DecidableEq, Repr

/-- The processing configuration record returned by `AdaptiveConfig.getConfig`
(route.ts lines 31–79). -/
structure ProcessingConfig where
  MAX_CHUNK_TOKENS : Nat
  OVERLAP_TOKENS : Nat
  BATCH_SIZE : Nat
  MAX_PARALLEL_BATCHES : Nat
  BATCH_DELAY_MS : Nat
  PROCESSING_STRATEGY : String
deriving DecidableEq, Repr

/-- `AdaptiveConfig.getConfig` (route.ts lines 32–78): a four-tier lookup on
the text length.  The `contentType` parameter is present in the source
signature but never read. -/
def AdaptiveConfig.getConfig (textLength : Nat) (_contentType : ContentType) :
    ProcessingConfig :=
  if textLength < 50000 then
    { MAX_CHUNK_TOKENS := 400, OVERLAP_TOKENS := 80, BATCH_SIZE := 5,
      MAX_PARALLEL_BATCHES := 2, BATCH_DELAY_MS := 500,
      PROCESSING_STRATEGY := "ACCURACY_FIRST" }
  else if textLength < 500000 then
    { MAX_CHUNK_TOKENS := 350, OVERLAP_TOKENS := 60, BATCH_SIZE := 8,
      MAX_PARALLEL_BATCHES := 3, BATCH_DELAY_MS := 300,
      PROCESSING_STRATEGY := "BALANCED" }
  else if textLength < 2000000 then
    { MAX_CHUNK_TOKENS := 300, OVERLAP_TOKENS := 50, BATCH_SIZE := 12,
      MAX_PARALLEL_BATCHES := 4, BATCH_DELAY_MS := 200,
      PROCESSING_STRATEGY := "SPEED_OPTIMIZED" }
  else
    { MAX_CHUNK_TOKENS := 250, OVERLAP_TOKENS := 40, BATCH_SIZE := 15,
      MAX_PARALLEL_BATCHES := 5, BATCH_DELAY_MS := 150,
      PROCESSING_STRATEGY := "MAXIMUM_THROUGHPUT" }

/-- The `characteristics` record of `ContentAnalyzer.analyzeContent`. -/
structure Characteristics where
  codeRatio : ℚ
  naturalLanguageRatio : ℚ
  structureComplexity : ℚ
deriving DecidableEq, Repr

/-- The classification result of `ContentAnalyzer.analyzeContent`. -/
structure ContentAnalysis where
  type : ContentType
  confidence : ℚ
  characteristics : Characteristics
deriving DecidableEq, Repr

/-- `ContentAnalyzer.analyzeContent` (route.ts lines 83–169), decision part.
The weighted regex-match totals `codeScore` and `nlScore`, the sample length
`totalChars`, and the average leading indentation are taken as inputs; the
embedding covers the normalization and the branch structure exactly
(route.ts lines 128–168).  Ratios live in `ℚ`; when `totalChars = 0` the
JavaScript code produces `NaN` ratios whose comparisons are all false, and
`ℚ` division by zero produces `0`, so both land in the `UNKNOWN` branch. -/
def ContentAnalyzer.analyzeContent (codeScore nlScore totalChars : Nat)
    (avgIndentation : ℚ) : ContentAnalysis :=
  let codeRatio : ℚ := (codeScore : ℚ) / (totalChars : ℚ)
  let naturalLanguageRatio : ℚ := (nlScore : ℚ) / (totalChars : ℚ)
  let structureComplexity : ℚ := avgIndentation / 10
  let ch : Characteristics :=
    { codeRatio := codeRatio, naturalLanguageRatio := naturalLanguageRatio,
      structureComplexity := structureComplexity }
  if codeRatio > 3/10 ∧ codeRatio > naturalLanguageRatio * 2 then
    { type := .CODE, confidence := min (95/100) (codeRatio / (3/10)),
      characteristics := ch }
  else if naturalLanguageRatio > 2/10 ∧ naturalLanguageRatio > codeRatio * 2 then
    { type := .NATURAL_LANGUAGE,
      confidence := min (95/100) (naturalLanguageRatio / (2/10)),
      characteristics := ch }
  else if codeRatio > 1/10 ∨ naturalLanguageRatio > 1/10 then
    { type := .MIXED, confidence := 7/10, characteristics := ch }
  else
    { type := .UNKNOWN, confidence := 3/10, characteristics := ch }

/-- The confidence value each classification forces. -/
def confidenceOf : ContentType → ℚ
  | .CODE => 95/100
  | .NATURAL_LANGUAGE => 95/100
  | .MIXED => 7/10
  | .UNKNOWN => 3/10

/-- C10: `ContentAnalyzer.analyzeContent` always returns confidence
`0.95` for `CODE` and `NATURAL_LANGUAGE`, `0.7` for `MIXED`, `0.3` for
`UNKNOWN`: the guard `codeRatio > 0.3` forces
`min 0.95 (codeRatio / 0.3) = 0.95` (and symmetrically for natural
language), so the confidence is a function of the type alone, never varying
with how far the dominant signal exceeds its floor, and always lies in
`[0, 1]`. -/
theorem analyzeContent_confidence_constant
    (codeScore nlScore totalChars : Nat) (avgIndentation : ℚ) :
    (ContentAnalyzer.analyzeContent codeScore nlScore totalChars
        avgIndentation).confidence =
      confidenceOf (ContentAnalyzer.analyzeContent codeScore nlScore totalChars
        avgIndentation).type ∧
    0 ≤ (ContentAnalyzer.analyzeContent codeScore nlScore totalChars
        avgIndentation).confidence ∧
    (ContentAnalyzer.analyzeContent codeScore nlScore totalChars
        avgIndentation).confidence ≤ 1 := by
  unfold ContentAnalyzer.analyzeContent
  set cr : ℚ := (codeScore : ℚ) / (totalChars : ℚ) with hcr
  set nr : ℚ := (nlScore : ℚ) / (totalChars : ℚ) with hnr
  dsimp only
  split_ifs with h1 h2 h3
  · have hgt : (1 : ℚ) < cr / (3/10) := by
      rw [lt_div_iff (by norm_num : (0:ℚ) < 3/10)]
      linarith [h1.1]
    have hmin : min (95/100 : ℚ) (cr / (3/10)) = 95/100 :=
      min_eq_left (by linarith)
    refine ⟨by simpa [confidenceOf] using hmin, ?_, ?_⟩ <;>
      simp [hmin] <;> norm_num
  · have hgt : (1 : ℚ) < nr / (2/10) := by
      rw [lt_div_iff (by norm_num : (0:ℚ) < 2/10)]
      linarith [h2.1]
    have hmin : min (95/100 : ℚ) (nr / (2/10)) = 95/100 :=
      min_eq_left (by linarith)
    refine ⟨by simpa [confidenceOf] using hmin, ?_, ?_⟩ <;>
      simp [hmin] <;> norm_num
  · exact ⟨by simp [confidenceOf], by norm_num, by norm_num⟩
  · exact ⟨by simp [confidenceOf], by norm_num, by norm_num⟩

/-- C8 counterexample: the claim asserts the configuration for a smaller
input has a chunk-size limit at most that of a larger input, but
`AdaptiveConfig.getConfig` gives the small tier (length 0) a
`MAX_CHUNK_TOKENS` of 400 and the massive tier (length 2000000) only 250:
the direction is the opposite of the claim. -/
theorem getConfig_chunk_size_decreases :
    (AdaptiveConfig.getConfig 0 .NATURAL_LANGUAGE).MAX_CHUNK_TOKENS >
      (AdaptiveConfig.getConfig 2000000 .NATURAL_LANGUAGE).MAX_CHUNK_TOKENS := by
  decide

/-- C8 amended: for a fixed content type and lengths `L1 < L2`, the larger
input gets batch size and parallel-batch count at least those of the
smaller one and an inter-batch delay at most that of the smaller one
(larger input → more aggressive batching), while the chunk-size limit of
the smaller input is at least — not at most — that of the larger input. -/
theorem getConfig_tier_monotone (ct : ContentType) (L1 L2 : Nat)
    (h : L1 < L2) :
    (AdaptiveConfig.getConfig L1 ct).BATCH_SIZE ≤
        (AdaptiveConfig.getConfig L2 ct).BATCH_SIZE ∧
    (AdaptiveConfig.getConfig L1 ct).MAX_PARALLEL_BATCHES ≤
        (AdaptiveConfig.getConfig L2 ct).MAX_PARALLEL_BATCHES ∧
    (AdaptiveConfig.getConfig L2 ct).BATCH_DELAY_MS ≤
        (AdaptiveConfig.getConfig L1 ct).BATCH_DELAY_MS ∧
    (AdaptiveConfig.getConfig L2 ct).MAX_CHUNK_TOKENS ≤
        (AdaptiveConfig.getConfig L1 ct).MAX_CHUNK_TOKENS := by
  unfold AdaptiveConfig.getConfig
  split_ifs <;> simp_all <;> omega

/-- Witness for `getConfig_tier_monotone` at lengths 40000 < 600000. -/
theorem getConfig_tier_monotone_witness :
    (AdaptiveConfig.getConfig 40000 .CODE).BATCH_SIZE ≤
        (AdaptiveConfig.getConfig 600000 .CODE).BATCH_SIZE ∧
    (AdaptiveConfig.getConfig 40000 .CODE).MAX_PARALLEL_BATCHES ≤
        (AdaptiveConfig.getConfig 600000 .CODE).MAX_PARALLEL_BATCHES ∧
    (AdaptiveConfig.getConfig 600000 .CODE).BATCH_DELAY_MS ≤
        (AdaptiveConfig.getConfig 40000 .CODE).BATCH_DELAY_MS ∧
    (AdaptiveConfig.getConfig 600000 .CODE).MAX_CHUNK_TOKENS ≤
        (AdaptiveConfig.getConfig 40000 .CODE).MAX_CHUNK_TOKENS :=
  getConfig_tier_monotone .CODE 40000 600000 (by decide)

/-! ## Chunk records and the batch processor -/

/-- The chunk record produced by `SemanticChunker` (route.ts lines 184–190):
content, retrieval context, token count, boundary label, and content-type
label. -/
structure Chunk where
  content : String
  context : String
  tokens : Nat
  semanticBoundary : String
  chunkType : String
deriving DecidableEq, Repr

/-- Inner loop of `UltraHighPerformanceProcessor.processAllChunks`
(route.ts lines 626–630): batch `j` of the group starting at chunk
position `i` is `chunks.slice(i + j*B, min(i + j*B + B, n))`, for `j`
running while `j < P` and the slice start is in range. -/
def UltraHighPerformanceProcessor.buildGroupGo {α : Type} (chunks : List α)
    (B P i : Nat) (j : Nat) : List (List α) :=
  if h : j < P ∧ i + j * B < chunks.length then
    ((chunks.drop (i + j * B)).take B) ::
      UltraHighPerformanceProcessor.buildGroupGo chunks B P i (j + 1)
  else []
termination_by P - j
decreasing_by omega

/-- One batch group (route.ts lines 624–630), starting at `j = 0`. -/
def UltraHighPerformanceProcessor.buildGroup {α : Type} (chunks : List α)
    (B P i : Nat) : List (List α) :=
  UltraHighPerformanceProcessor.buildGroupGo chunks B P i 0

/-- Outer loop of `processAllChunks` (route.ts lines 622–633): groups start
at `i = 0, B*P, 2*B*P, …` while `i < chunks.length`.  The source `for` loop
advances `i` by `B*P` each iteration and so diverges when `B*P = 0`; the
embedding carries fuel, and `chunks.length + 1` units are enough whenever
`B*P ≥ 1`. -/
def UltraHighPerformanceProcessor.buildGroupsGo {α : Type} (chunks : List α)
    (B P : Nat) : Nat → Nat → List (List (List α))
  | _, 0 => []
  | i, fuel + 1 =>
    if i < chunks.length then
      UltraHighPerformanceProcessor.buildGroup chunks B P i ::
        UltraHighPerformanceProcessor.buildGroupsGo chunks B P (i + B * P) fuel
    else []

/-- The batch groups of `processAllChunks` (route.ts lines 622–635). -/
def UltraHighPerformanceProcessor.batchGroups {α : Type} (chunks : List α)
    (B P : Nat) : List (List (List α)) :=
  UltraHighPerformanceProcessor.buildGroupsGo chunks B P 0 (chunks.length + 1)

/-- The `(chunk_index, chunk)` pairs persisted by `processBatch`
(route.ts lines 718–756) for the batch with global batch number
`globalBatchIndex`: each chunk's index is
`globalBatchIndex * BATCH_SIZE + chunkIndex`, computed from position before
dispatch (line 721). -/
def UltraHighPerformanceProcessor.processBatchRows {α : Type} (B : Nat)
    (globalBatchIndex : Nat) (batch : List α) : List (Nat × α) :=
  batch.enum.map fun p => (globalBatchIndex * B + p.1, p.2)

/-- All `(chunk_index, chunk)` pairs persisted by `processAllChunks`: group
`groupIndex` dispatches its batches with global batch numbers
`groupIndex * MAX_PARALLEL_BATCHES + batchIndex` (route.ts line 644).
Completion order of the concurrent batches does not enter the computation
of any index, so the pairs are listed in dispatch order. -/
def UltraHighPerformanceProcessor.processAllChunksRows {α : Type}
    (B P : Nat) (chunks : List α) : List (Nat × α) :=
  (UltraHighPerformanceProcessor.batchGroups chunks B P).enum.flatMap fun g =>
    g.2.enum.flatMap fun b =>
      UltraHighPerformanceProcessor.processBatchRows B (g.1 * P + b.1) b.2

/-! ### Specification helpers for the grouping structure -/

/-- `chunksOf B l`: `l` cut into consecutive pieces of length `B` (last
piece possibly shorter).  Proof-side description of the slicing loops. -/
def chunksOf {α : Type} (B : Nat) (l : List α) : List (List α) :=
  if h : l.length = 0 ∨ B = 0 then []
  else l.take B :: chunksOf B (l.drop B)
termination_by l.length
decreasing_by
  simp only [not_or] at h
  simp only [List.length_drop]
  omega

/-- `groupsOf B P l`: `l` cut into groups of `P` batches of `B` chunks. -/
def groupsOf {α : Type} (B P : Nat) (l : List α) : List (List (List α)) :=
  if h : l.length = 0 ∨ B * P = 0 then []
  else chunksOf B (l.take (B * P)) :: groupsOf B P (l.drop (B * P))
termination_by l.length
decreasing_by
  simp only [not_or] at h
  simp only [List.length_drop]
  omega

/-- All pieces of the list except possibly the last have length `n`. -/
inductive ChunkedBy {γ : Type} (n : Nat) : List (List γ) → Prop
  | nil : ChunkedBy n []
  | single (b : List γ) : ChunkedBy n [b]
  | cons (b : List γ) (bs : List (List γ)) (hb : b.length = n)
      (h : ChunkedBy n bs) : ChunkedBy n (b :: bs)

theorem enumFrom_map_add {α : Type} (l : List α) :
    ∀ (s k : Nat), (l.enumFrom s).map (fun p => (k + p.1, p.2)) =
      l.enumFrom (k + s) := by
  induction l with
  | nil => intro s k; simp
  | cons a l ih =>
    intro s k
    simp only [List.enumFrom_cons, List.map_cons, ih (s + 1) k]
    rw [Nat.add_assoc]

theorem enumFrom_append' {α : Type} (l₁ l₂ : List α) :
    ∀ s : Nat, (l₁ ++ l₂).enumFrom s =
      l₁.enumFrom s ++ l₂.enumFrom (s + l₁.length) := by
  induction l₁ with
  | nil => intro s; simp
  | cons a l ih =>
    intro s
    have hn : s + 1 + l.length = s + (l.length + 1) := by omega
    simp only [List.cons_append, List.enumFrom_cons, ih (s + 1),
      List.length_cons, hn]

theorem enumFrom_flatMap_add {α β : Type} (l : List α) :
    ∀ (s k : Nat) (F : Nat → α → List β),
      (l.enumFrom s).flatMap (fun p => F (k + p.1) p.2) =
        (l.enumFrom (k + s)).flatMap (fun p => F p.1 p.2) := by
  induction l with
  | nil => intro s k F; simp
  | cons a l ih =>
    intro s k F
    simp only [List.enumFrom_cons, List.flatMap_cons, ih (s + 1) k]
    rw [Nat.add_assoc]

theorem processBatchRows_eq_enumFrom {α : Type} (B g : Nat) (batch : List α) :
    UltraHighPerformanceProcessor.processBatchRows B g batch =
      batch.enumFrom (g * B) := by
  unfold UltraHighPerformanceProcessor.processBatchRows
  rw [List.enum_eq_enumFrom]
  simpa using enumFrom_map_add batch 0 (g * B)

theorem flatMap_enumFrom_batches {α : Type} {B : Nat}
    {bs : List (List α)} (hc : ChunkedBy B bs) :
    ∀ g : Nat, (bs.enumFrom g).flatMap (fun p => p.2.enumFrom (p.1 * B)) =
      bs.flatten.enumFrom (g * B) := by
  induction hc with
  | nil => intro g; simp
  | single b => intro g; simp
  | cons b bs hb _ ih =>
    intro g
    simp only [List.enumFrom_cons, List.flatMap_cons, List.flatten_cons,
      enumFrom_append', hb, ih (g + 1)]
    rw [Nat.succ_mul]

theorem flatMap_enumFrom_groups {α : Type} {B P : Nat}
    {gs : List (List (List α))} (hc : ChunkedBy P gs) :
    ∀ g : Nat,
      (gs.enumFrom g).flatMap
        (fun q => (q.2.enumFrom (q.1 * P)).flatMap
          (fun p => p.2.enumFrom (p.1 * B))) =
      (gs.flatten.enumFrom (g * P)).flatMap
        (fun p => p.2.enumFrom (p.1 * B)) := by
  induction hc with
  | nil => intro g; simp
  | single b => intro g; simp
  | cons b bs hb _ ih =>
    intro g
    simp only [List.enumFrom_cons, List.flatMap_cons, List.flatten_cons,
      enumFrom_append', hb, ih (g + 1), List.flatMap_append]
    rw [Nat.succ_mul]

theorem chunksOf_nil' {α : Type} (B : Nat) : chunksOf B ([] : List α) = [] := by
  rw [chunksOf.eq_def]; simp

theorem chunksOf_pos {α : Type} {B : Nat} {l : List α} (hB : 0 < B)
    (hl : l ≠ []) :
    chunksOf B l = l.take B :: chunksOf B (l.drop B) := by
  rw [chunksOf.eq_def, dif_neg]
  push_neg
  exact ⟨by simpa [List.length_eq_zero] using hl, by omega⟩

theorem flatten_chunksOf {α : Type} {B : Nat} (hB : 0 < B) :
    ∀ (n : Nat) (l : List α), l.length ≤ n → (chunksOf B l).flatten = l := by
  intro n
  induction n with
  | zero =>
    intro l hl
    have : l = [] := by
      cases l with
      | nil => rfl
      | cons a l => simp at hl
    subst this
    simp [chunksOf_nil']
  | succ n ih =>
    intro l hl
    by_cases hnil : l = []
    · subst hnil; simp [chunksOf_nil']
    · rw [chunksOf_pos hB hnil, List.flatten_cons,
        ih (l.drop B) (by simp [List.length_drop]; omega),
        List.take_append_drop]

theorem chunked_chunksOf {α : Type} {B : Nat} (hB : 0 < B) :
    ∀ (n : Nat) (l : List α), l.length ≤ n → ChunkedBy B (chunksOf B l) := by
  intro n
  induction n with
  | zero =>
    intro l hl
    have : l = [] := by
      cases l with
      | nil => rfl
      | cons a l => simp at hl
    subst this
    rw [chunksOf_nil']
    exact ChunkedBy.nil
  | succ n ih =>
    intro l hl
    by_cases hnil : l = []
    · subst hnil; rw [chunksOf_nil']; exact ChunkedBy.nil
    · rw [chunksOf_pos hB hnil]
      by_cases hrest : l.drop B = []
      · rw [hrest, chunksOf_nil']
        exact ChunkedBy.single _
      · have hlen : (l.take B).length = B := by
          have : B < l.length := by
            by_contra hc
            exact hrest (List.drop_eq_nil_of_le (by omega))
          simp [List.length_take]
          omega
        exact ChunkedBy.cons _ _ hlen
          (ih (l.drop B) (by simp [List.length_drop]; omega))

theorem length_chunksOf {α : Type} {B : Nat} (hB : 0 < B) :
    ∀ (k : Nat) (l : List α), l.length = B * k → (chunksOf B l).length = k := by
  intro k
  induction k with
  | zero =>
    intro l hl
    have : l = [] := by
      cases l with
      | nil => rfl
      | cons a l => simp at hl
    subst this
    simp [chunksOf_nil']
  | succ k ih =>
    intro l hl
    have hnil : l ≠ [] := by
      intro h; subst h; simp at hl
      rcases hl with h | h <;> omega
    rw [chunksOf_pos hB hnil, List.length_cons,
      ih (l.drop B) (by simp [List.length_drop, hl, Nat.mul_succ])]

theorem chunksOf_split {α : Type} {B : Nat} (hB : 0 < B) :
    ∀ (k : Nat) (l : List α),
      chunksOf B l = chunksOf B (l.take (B * k)) ++ chunksOf B (l.drop (B * k)) := by
  intro k
  induction k with
  | zero => intro l; simp [chunksOf_nil']
  | succ k ih =>
    intro l
    by_cases hnil : l = []
    · subst hnil; simp [chunksOf_nil']
    · have hBk : 0 < B * (k + 1) := Nat.mul_pos hB (Nat.succ_pos k)
      have htake : l.take (B * (k + 1)) ≠ [] := by
        simp only [ne_eq, List.take_eq_nil_iff, not_or]
        exact ⟨by omega, hnil⟩
      rw [chunksOf_pos hB hnil, chunksOf_pos hB htake]
      have h1 : (l.take (B * (k + 1))).take B = l.take B := by
        rw [List.take_take]
        congr 1
        have : B ≤ B * (k + 1) := Nat.le_mul_of_pos_right B (by omega)
        omega
      have h2 : (l.take (B * (k + 1))).drop B = (l.drop B).take (B * k) := by
        have harg : B * (k + 1) = B + B * k := by ring
        rw [List.take_drop, harg]
      have h3 : l.drop (B * (k + 1)) = (l.drop B).drop (B * k) := by
        rw [List.drop_drop]
        congr 1
        ring
      rw [h1, h2, h3, List.cons_append, ← ih (l.drop B)]

theorem groupsOf_nil' {α : Type} (B P : Nat) :
    groupsOf B P ([] : List α) = [] := by
  rw [groupsOf.eq_def]; simp

theorem groupsOf_pos {α : Type} {B P : Nat} {l : List α} (hBP : 0 < B * P)
    (hl : l ≠ []) :
    groupsOf B P l =
      chunksOf B (l.take (B * P)) :: groupsOf B P (l.drop (B * P)) := by
  rw [groupsOf.eq_def, dif_neg]
  push_neg
  exact ⟨by simpa [List.length_eq_zero] using hl, by omega⟩

theorem flatten_groupsOf {α : Type} {B P : Nat} (hB : 0 < B) (hP : 0 < P) :
    ∀ (n : Nat) (l : List α), l.length ≤ n →
      (groupsOf B P l).flatten = chunksOf B l := by
  intro n
  induction n with
  | zero =>
    intro l hl
    have : l = [] := by
      cases l with
      | nil => rfl
      | cons a l => simp at hl
    subst this
    simp [groupsOf_nil', chunksOf_nil']
  | succ n ih =>
    intro l hl
    by_cases hnil : l = []
    · subst hnil; simp [groupsOf_nil', chunksOf_nil']
    · have hBP : 0 < B * P := Nat.mul_pos hB hP
      rw [groupsOf_pos hBP hnil, List.flatten_cons,
        ih (l.drop (B * P)) (by
          simp only [List.length_drop]
          have : 0 < l.length := List.length_pos.mpr hnil
          omega)]
      rw [← chunksOf_split hB P l]

theorem chunked_groupsOf {α : Type} {B P : Nat} (hB : 0 < B) (hP : 0 < P) :
    ∀ (n : Nat) (l : List α), l.length ≤ n → ChunkedBy P (groupsOf B P l) := by
  intro n
  induction n with
  | zero =>
    intro l hl
    have : l = [] := by
      cases l with
      | nil => rfl
      | cons a l => simp at hl
    subst this
    rw [groupsOf_nil']
    exact ChunkedBy.nil
  | succ n ih =>
    intro l hl
    by_cases hnil : l = []
    · subst hnil; rw [groupsOf_nil']; exact ChunkedBy.nil
    · have hBP : 0 < B * P := Nat.mul_pos hB hP
      rw [groupsOf_pos hBP hnil]
      by_cases hrest : l.drop (B * P) = []
      · rw [hrest, groupsOf_nil']
        exact ChunkedBy.single _
      · have hlong : B * P < l.length := by
          by_contra hc
          exact hrest (List.drop_eq_nil_of_le (by omega))
        have hlen : (chunksOf B (l.take (B * P))).length = P :=
          length_chunksOf hB P _ (by simp [List.length_take]; omega)
        exact ChunkedBy.cons _ _ hlen
          (ih (l.drop (B * P)) (by
            simp only [List.length_drop]
            have : 0 < l.length := List.length_pos.mpr hnil
            omega))

theorem buildGroupGo_eq {α : Type} (chunks : List α) (B P i : Nat)
    (hB : 0 < B) :
    ∀ (d j : Nat), P - j ≤ d →
      UltraHighPerformanceProcessor.buildGroupGo chunks B P i j =
        chunksOf B ((chunks.drop (i + j * B)).take ((P - j) * B)) := by
  intro d
  induction d with
  | zero =>
    intro j hj
    rw [UltraHighPerformanceProcessor.buildGroupGo]
    rw [dif_neg (by omega)]
    have : P - j = 0 := by omega
    rw [this]
    simp [chunksOf_nil']
  | succ d ih =>
    intro j hj
    rw [UltraHighPerformanceProcessor.buildGroupGo]
    split_ifs with h
    · rw [ih (j + 1) (by omega)]
      have hPj : 0 < P - j := by omega
      have hne : chunks.drop (i + j * B) ≠ [] := by
        simp only [ne_eq, List.drop_eq_nil_iff, not_le]
        omega
      have htake : (chunks.drop (i + j * B)).take ((P - j) * B) ≠ [] := by
        simp only [ne_eq, List.take_eq_nil_iff, not_or]
        constructor
        · have : 0 < (P - j) * B := Nat.mul_pos hPj hB
          omega
        · exact hne
      rw [chunksOf_pos hB htake]
      congr 1
      · rw [List.take_take]
        congr 1
        have : B ≤ (P - j) * B := Nat.le_mul_of_pos_left B hPj
        omega
      · congr 1
        have harg : (P - j) * B = B + (P - (j + 1)) * B := by
          have h1 : P - j = (P - (j + 1)) + 1 := by omega
          rw [h1]
          ring
        rw [harg, ← List.take_drop, List.drop_drop]
        have harg2 : i + j * B + B = i + (j + 1) * B := by ring
        rw [harg2]
    · push_neg at h
      by_cases hjP : j < P
      · have hge : chunks.length ≤ i + j * B := h hjP
        have : chunks.drop (i + j * B) = [] := List.drop_eq_nil_of_le hge
        rw [this]
        simp [chunksOf_nil']
      · have : P - j = 0 := by omega
        rw [this]
        simp [chunksOf_nil']

theorem buildGroup_eq {α : Type} (chunks : List α) (B P i : Nat)
    (hB : 0 < B) :
    UltraHighPerformanceProcessor.buildGroup chunks B P i =
      chunksOf B ((chunks.drop i).take (B * P)) := by
  unfold UltraHighPerformanceProcessor.buildGroup
  rw [buildGroupGo_eq chunks B P i hB P 0 (by omega)]
  norm_num [Nat.mul_comm]

theorem buildGroupsGo_eq {α : Type} (chunks : List α) (B P : Nat)
    (hB : 0 < B) (hP : 0 < P) :
    ∀ (fuel i : Nat), chunks.length ≤ i + fuel * (B * P) →
      UltraHighPerformanceProcessor.buildGroupsGo chunks B P i fuel =
        groupsOf B P (chunks.drop i) := by
  intro fuel
  induction fuel with
  | zero =>
    intro i hi
    have : chunks.drop i = [] := List.drop_eq_nil_of_le (by omega)
    rw [this, groupsOf_nil']
    rfl
  | succ fuel ih =>
    intro i hi
    rw [UltraHighPerformanceProcessor.buildGroupsGo]
    split_ifs with h
    · have hne : chunks.drop i ≠ [] := by
        simp only [ne_eq, List.drop_eq_nil_iff, not_le]
        omega
      have hBP : 0 < B * P := Nat.mul_pos hB hP
      rw [groupsOf_pos hBP hne, buildGroup_eq chunks B P i hB,
        ih (i + B * P) (by
          have : (fuel + 1) * (B * P) = B * P + fuel * (B * P) := by ring
          omega)]
      rw [List.drop_drop]
    · have : chunks.drop i = [] := List.drop_eq_nil_of_le (by omega)
      rw [this, groupsOf_nil']

theorem batchGroups_eq {α : Type} (chunks : List α) (B P : Nat)
    (hB : 0 < B) (hP : 0 < P) :
    UltraHighPerformanceProcessor.batchGroups chunks B P =
      groupsOf B P chunks := by
  unfold UltraHighPerformanceProcessor.batchGroups
  rw [buildGroupsGo_eq chunks B P hB hP (chunks.length + 1) 0 (by
    have hBP : 0 < B * P := Nat.mul_pos hB hP
    have := Nat.le_mul_of_pos_right (chunks.length + 1) hBP
    omega)]
  rfl

/-- C2: for every chunk list and positive batch size `B` and parallelism
`P`, the `(chunk_index, chunk)` pairs persisted by
`UltraHighPerformanceProcessor.processAllChunks` are exactly
`(0, c₀), …, (N-1, c_{N-1})` in the Chunker's output order: indices are
contiguous with no gaps or duplicates, each row's index equals the chunk's
position, and the index is computed from position before dispatch
(`globalIndex = (groupIndex * P + batchIndex) * B + chunkIndex`),
independent of completion order. -/
theorem processAllChunks_chunk_indices {α : Type} (B P : Nat)
    (chunks : List α) (hB : 0 < B) (hP : 0 < P) :
    UltraHighPerformanceProcessor.processAllChunksRows B P chunks =
      chunks.enum := by
  unfold UltraHighPerformanceProcessor.processAllChunksRows
  rw [batchGroups_eq chunks B P hB hP]
  have hcP : ChunkedBy P (groupsOf B P chunks) :=
    chunked_groupsOf hB hP chunks.length chunks le_rfl
  have hflat : (groupsOf B P chunks).flatten = chunksOf B chunks :=
    flatten_groupsOf hB hP chunks.length chunks le_rfl
  have hcB : ChunkedBy B (groupsOf B P chunks).flatten := by
    rw [hflat]
    exact chunked_chunksOf hB chunks.length chunks le_rfl
  have step1 :
      (groupsOf B P chunks).enum.flatMap (fun g =>
        g.2.enum.flatMap fun b =>
          UltraHighPerformanceProcessor.processBatchRows B (g.1 * P + b.1) b.2) =
      (groupsOf B P chunks).enum.flatMap (fun g =>
        (g.2.enumFrom (g.1 * P)).flatMap fun p => p.2.enumFrom (p.1 * B)) := by
    apply List.flatMap_congr
    intro g _
    have h1 : g.2.enum.flatMap (fun b =>
        UltraHighPerformanceProcessor.processBatchRows B (g.1 * P + b.1) b.2) =
        g.2.enum.flatMap (fun b => b.2.enumFrom ((g.1 * P + b.1) * B)) := by
      apply List.flatMap_congr
      intro b _
      exact processBatchRows_eq_enumFrom B (g.1 * P + b.1) b.2
    rw [h1, List.enum_eq_enumFrom,
      enumFrom_flatMap_add g.2 0 (g.1 * P) (fun q x => x.enumFrom (q * B))]
    simp
  rw [step1, List.enum_eq_enumFrom,
    flatMap_enumFrom_groups hcP 0]
  rw [show (0 : Nat) * P = 0 from by omega,
    flatMap_enumFrom_batches hcB 0,
    show (0 : Nat) * B = 0 from by omega,
    hflat, flatten_chunksOf hB chunks.length chunks le_rfl,
    List.enum_eq_enumFrom]

/-- Witness for `processAllChunks_chunk_indices`: batch size 5, two
parallel batches, twelve chunks. -/
theorem processAllChunks_chunk_indices_witness :
    (0 : Nat) < 5 ∧ (0 : Nat) < 2 ∧
      UltraHighPerformanceProcessor.processAllChunksRows 5 2
        (List.range 12) = (List.range 12).enum :=
  ⟨by decide, by decide,
    processAllChunks_chunk_indices 5 2 (List.range 12) (by decide) (by decide)⟩

/-- The `Promise.all` combinator used by `processBatch` (route.ts line
764): collects all per-chunk results, rejecting with the first failing
chunk's error (in list order) if any chunk fails. -/
def promiseAll {α ε ρ : Type} (f : α → Except ε ρ) : List α → Except ε (List ρ)
  | [] => .ok []
  | a :: l =>
    match f a, promiseAll f l with
    | .error e, _ => .error e
    | .ok _, .error e => .error e
    | .ok v, .ok vs => .ok (v :: vs)

/-- `processBatch` (route.ts lines 718–766): all chunks of the batch are
embedded and inserted concurrently via `Promise.all`; the batch resolves
with `batch.length` only when every chunk succeeds and rejects otherwise.
`runChunk` stands for the composite of the OpenAI embedding call and the
Supabase insert for one chunk, applied to the chunk's precomputed global
index (`batchIndex * B + chunkIndex`, line 721). -/
def UltraHighPerformanceProcessor.processBatch {α ε ρ : Type}
    (runChunk : Nat → α → Except ε ρ) (B batchIndex : Nat)
    (batch : List α) : Except ε (List ρ × Nat) :=
  match promiseAll (fun p => runChunk (batchIndex * B + p.1) p.2) batch.enum with
  | .ok rows => .ok (rows, batch.length)
  | .error e => .error e

/-- Loop of `processBatchWithRetries` (route.ts lines 696–716): attempts
run from `attempt = 1` while `attempt ≤ maxRetries`; a success returns at
once, the error of attempt `maxRetries` propagates, an earlier error backs
off and retries.  `dflt` models the source's unreachable `return 0` after
the loop; the structural `fuel` needs `maxRetries + 1` units. -/
def UltraHighPerformanceProcessor.retryLoop {ε γ : Type}
    (run : Nat → Except ε γ) (maxRetries : Nat) (dflt : γ) :
    Nat → Nat → Except ε γ
  | _, 0 => .ok dflt
  | attempt, fuel + 1 =>
    if attempt ≤ maxRetries then
      match run attempt with
      | .ok v => .ok v
      | .error e =>
        if attempt = maxRetries then .error e
        else UltraHighPerformanceProcessor.retryLoop run maxRetries dflt
          (attempt + 1) fuel
    else .ok dflt

/-- `processBatchWithRetries` (route.ts lines 696–716): the source fixes
`maxRetries = 3` (line 697). -/
def UltraHighPerformanceProcessor.processBatchWithRetries {ε γ : Type}
    (run : Nat → Except ε γ) (dflt : γ) : Except ε γ :=
  UltraHighPerformanceProcessor.retryLoop run 3 dflt 1 4

theorem promiseAll_ok_length {α ε ρ : Type} (f : α → Except ε ρ) :
    ∀ (l : List α) (r : List ρ), promiseAll f l = Except.ok r →
      r.length = l.length := by
  intro l
  induction l with
  | nil =>
    intro r h
    cases h
    rfl
  | cons a l ih =>
    intro r h
    unfold promiseAll at h
    cases hfa : f a with
    | error e => rw [hfa] at h; simp at h
    | ok v =>
      cases hml : promiseAll f l with
      | error e => rw [hfa, hml] at h; simp at h
      | ok vs =>
        rw [hfa, hml] at h
        cases h
        simp [ih vs hml]

theorem promiseAll_ok_of_forall {α ε ρ : Type} (f : α → Except ε ρ) :
    ∀ (l : List α), (∀ a ∈ l, ∃ r, f a = Except.ok r) →
      ∃ rs : List ρ, promiseAll f l = Except.ok rs := by
  intro l
  induction l with
  | nil => intro _; exact ⟨[], rfl⟩
  | cons a l ih =>
    intro h
    obtain ⟨r, hr⟩ := h a (List.mem_cons_self a l)
    obtain ⟨rs, hrs⟩ := ih (fun x hx => h x (List.mem_cons_of_mem a hx))
    refine ⟨r :: rs, ?_⟩
    unfold promiseAll
    rw [hr, hrs]

/-- C7: each batch is retried as a whole up to 3 attempts; if the first
two attempts fail and the third succeeds (every chunk of the batch
embedding and persisting on attempt 3), `processBatchWithRetries` resolves
successfully with every chunk of the batch persisted
(`batch.length` rows); and a batch failure propagates only when all 3
attempts fail: an error result implies attempts 1, 2 and 3 all errored,
the propagated error being that of attempt 3. -/
theorem processBatchWithRetries_retry_transparency {α ε ρ : Type}
    (runChunk : Nat → Nat → α → Except ε ρ) (B batchIndex : Nat)
    (batch : List α) (dflt : List ρ × Nat) (e1 e2 : ε)
    (h1 : UltraHighPerformanceProcessor.processBatch (runChunk 1) B
      batchIndex batch = .error e1)
    (h2 : UltraHighPerformanceProcessor.processBatch (runChunk 2) B
      batchIndex batch = .error e2)
    (h3 : ∀ p ∈ batch.enum, ∃ r,
      runChunk 3 (batchIndex * B + p.1) p.2 = Except.ok r) :
    (∃ rows : List ρ,
      UltraHighPerformanceProcessor.processBatchWithRetries
        (fun attempt => UltraHighPerformanceProcessor.processBatch
          (runChunk attempt) B batchIndex batch) dflt =
        .ok (rows, batch.length) ∧ rows.length = batch.length) ∧
    (∀ (run : Nat → Except ε (List ρ × Nat)) (e : ε),
      UltraHighPerformanceProcessor.processBatchWithRetries run dflt =
        .error e →
      (∃ a, run 1 = .error a) ∧ (∃ a, run 2 = .error a) ∧
        run 3 = .error e) := by
  constructor
  · obtain ⟨rows, hrows⟩ :=
      promiseAll_ok_of_forall (fun p => runChunk 3 (batchIndex * B + p.1) p.2)
        batch.enum h3
    have hlen : rows.length = batch.length := by
      have := promiseAll_ok_length _ _ _ hrows
      simpa [List.enum_length] using this
    have hok : UltraHighPerformanceProcessor.processBatch (runChunk 3) B
        batchIndex batch = .ok (rows, batch.length) := by
      unfold UltraHighPerformanceProcessor.processBatch
      rw [hrows]
    refine ⟨rows, ?_, hlen⟩
    simp only [UltraHighPerformanceProcessor.processBatchWithRetries,
      UltraHighPerformanceProcessor.retryLoop, h1, h2, hok]
    norm_num
  · intro run e hrun
    cases hr1 : run 1 with
    | ok v =>
      simp [UltraHighPerformanceProcessor.processBatchWithRetries,
        UltraHighPerformanceProcessor.retryLoop, hr1] at hrun
    | error a1 =>
      cases hr2 : run 2 with
      | ok v =>
        simp [UltraHighPerformanceProcessor.processBatchWithRetries,
          UltraHighPerformanceProcessor.retryLoop, hr1, hr2] at hrun
      | error a2 =>
        cases hr3 : run 3 with
        | ok v =>
          simp [UltraHighPerformanceProcessor.processBatchWithRetries,
            UltraHighPerformanceProcessor.retryLoop, hr1, hr2, hr3] at hrun
        | error a3 =>
          have he : a3 = e := by
            simp [UltraHighPerformanceProcessor.processBatchWithRetries,
              UltraHighPerformanceProcessor.retryLoop, hr1, hr2, hr3] at hrun
            exact hrun
          exact ⟨⟨a1, rfl⟩, ⟨a2, rfl⟩, by rw [he]⟩

/-- Concrete per-chunk runner for the retry witness: attempts 1 and 2 fail
with error 7, attempt 3 succeeds returning the chunk's global index. -/
def runC7 : Nat → Nat → Nat → Except Nat Nat :=
  fun attempt i _c => if attempt < 3 then .error 7 else .ok i

/-- Witness for `processBatchWithRetries_retry_transparency`: a two-chunk
batch whose first two attempts fail and whose third succeeds. -/
theorem processBatchWithRetries_retry_transparency_witness :
    (UltraHighPerformanceProcessor.processBatch (runC7 1) 5 0 [10, 20] =
      .error 7) ∧
    (UltraHighPerformanceProcessor.processBatch (runC7 2) 5 0 [10, 20] =
      .error 7) ∧
    (∀ p ∈ ([10, 20] : List Nat).enum, ∃ r,
      runC7 3 (0 * 5 + p.1) p.2 = Except.ok r) ∧
    ((∃ rows : List Nat,
      UltraHighPerformanceProcessor.processBatchWithRetries
        (fun attempt => UltraHighPerformanceProcessor.processBatch
          (runC7 attempt) 5 0 [10, 20]) ([], 0) =
        .ok (rows, ([10, 20] : List Nat).length) ∧
      rows.length = ([10, 20] : List Nat).length) ∧
    (∀ (run : Nat → Except Nat (List Nat × Nat)) (e : Nat),
      UltraHighPerformanceProcessor.processBatchWithRetries run ([], 0) =
        .error e →
      (∃ a, run 1 = .error a) ∧ (∃ a, run 2 = .error a) ∧
        run 3 = .error e)) :=
  ⟨rfl, rfl, fun p _ => ⟨0 * 5 + p.1, rfl⟩,
    processBatchWithRetries_retry_transparency runC7 5 0 [10, 20] ([], 0) 7 7
      rfl rfl (fun p _ => ⟨0 * 5 + p.1, rfl⟩)⟩

/-! ## The semantic chunker

String primitives are modelled over `List Char`.  JavaScript string
`.length` counts UTF-16 units and Lean counts characters; the pipeline's
inputs here are ASCII, where the two agree.  `\s` is modelled by the ASCII
whitespace characters. -/

/-- JavaScript `\s` on the ASCII range. -/
def isJsWs (c : Char) : Bool :=
  c = ' ' || c = '\t' || c = '\n' || c = '\r' || c = '\x0b' || c = '\x0c'

/-- JavaScript `String.prototype.trim`. -/
def trimJS (s : String) : String :=
  String.mk (((s.data.dropWhile isJsWs).reverse.dropWhile isJsWs).reverse)

/-- JavaScript `split('\n')`. -/
def splitNlAux : List Char → List Char → List String
  | acc, [] => [String.mk acc.reverse]
  | acc, c :: rest =>
    if c = '\n' then String.mk acc.reverse :: splitNlAux [] rest
    else splitNlAux (c :: acc) rest

/-- JavaScript `split('\n')` on a string. -/
def splitNl (s : String) : List String := splitNlAux [] s.data

/-- JavaScript `text.split(/(?<=[.!?])\s+/)`: a maximal whitespace run
preceded by `.`, `!` or `?` separates; the separator is consumed.  The
structural fuel needs `|text|` units (each step consumes one character). -/
def splitSentencesGo : Nat → List Char → List Char → List String
  | 0, acc, rest => [String.mk (acc.reverse ++ rest)]
  | _ + 1, acc, [] => [String.mk acc.reverse]
  | fuel + 1, acc, c :: rest =>
    if (c = '.' || c = '!' || c = '?') &&
        (match rest with | r :: _ => isJsWs r | [] => false) then
      String.mk (c :: acc).reverse ::
        splitSentencesGo fuel [] (rest.dropWhile isJsWs)
    else splitSentencesGo fuel (c :: acc) rest

/-- Sentence split of `splitBySentences` (route.ts line 446). -/
def splitSentences (s : String) : List String :=
  splitSentencesGo s.data.length [] s.data

/-- Index of the last `'\n'` in a character list, if any. -/
def lastNlIdx : List Char → Option Nat
  | [] => none
  | c :: rest =>
    match lastNlIdx rest with
    | some i => some (i + 1)
    | none => if c = '\n' then some 0 else none

/-- After a leading `'\n'`, the greedy `\s*\n` of the separator
`/\n\s*\n/` consumes through the last `'\n'` of the maximal whitespace
run; returns the remaining suffix when the separator matches. -/
def paraSepTail (rest : List Char) : Option (List Char) :=
  match lastNlIdx (rest.takeWhile isJsWs) with
  | some i => some (rest.drop (i + 1))
  | none => none

/-- JavaScript `text.split(/\n\s*\n/)` (route.ts line 374). -/
def splitParasGo : Nat → List Char → List Char → List String
  | 0, acc, rest => [String.mk (acc.reverse ++ rest)]
  | _ + 1, acc, [] => [String.mk acc.reverse]
  | fuel + 1, acc, c :: rest =>
    if c = '\n' then
      match paraSepTail rest with
      | some rest' => String.mk acc.reverse :: splitParasGo fuel [] rest'
      | none => splitParasGo fuel (c :: acc) rest
    else splitParasGo fuel (c :: acc) rest

/-- Paragraph split of `extractSemanticUnits` (route.ts line 374). -/
def splitParas (s : String) : List String :=
  splitParasGo s.data.length [] s.data

/-- JavaScript `content.split(/[.!?]+/)` (route.ts line 541). -/
def splitPunctGo : Nat → List Char → List Char → List String
  | 0, acc, rest => [String.mk (acc.reverse ++ rest)]
  | _ + 1, acc, [] => [String.mk acc.reverse]
  | fuel + 1, acc, c :: rest =>
    if c = '.' || c = '!' || c = '?' then
      String.mk acc.reverse ::
        splitPunctGo fuel []
          (rest.dropWhile (fun d => d = '.' || d = '!' || d = '?'))
    else splitPunctGo fuel (c :: acc) rest

/-- Punctuation split used by `createContextualOverlap`. -/
def splitPunct (s : String) : List String :=
  splitPunctGo s.data.length [] s.data

/-- Decidable list-segment membership (JavaScript `String.includes`). -/
def listIsPfx : List Char → List Char → Bool
  | [], _ => true
  | _ :: _, [] => false
  | a :: as, b :: bs => a = b && listIsPfx as bs

/-- `hay` contains `needle` as a contiguous segment. -/
def containsSeg (needle : List Char) : List Char → Bool
  | [] => listIsPfx needle []
  | c :: rest => listIsPfx needle (c :: rest) || containsSeg needle rest

/-- JavaScript `x || d` on a possibly-missing, possibly-zero number. -/
def orFalsy (o : Option Nat) (d : Nat) : Nat :=
  match o with
  | some v => if v = 0 then d else v
  | none => d

/-- The dynamic records flowing through the chunker: the block objects of
`extractCodeBlocks` (content/type/startLine), the unit objects of
`extractSemanticUnits` (content/type/index) and the bridge objects of
`createContextualOverlap` (content/type/index).  Fields a record does not
carry are `none`. -/
structure SemUnit where
  content : String
  type : String
  index : Option Nat := none
  startLine : Option Nat := none
  tokens : Option Nat := none
deriving DecidableEq, Repr

/-- The rendering of a `ContentType` by a JS template literal. -/
def ctString : ContentType → String
  | .CODE => "CODE"
  | .NATURAL_LANGUAGE => "NATURAL_LANGUAGE"
  | .MIXED => "MIXED"
  | .UNKNOWN => "UNKNOWN"

/-- `/^#+\s/` after the first `#`: more `#`s then a whitespace. -/
def hashThenWs : List Char → Bool
  | [] => false
  | c :: rest => if c = '#' then hashThenWs rest else isJsWs c

/-- Anchored `/^#+\s/`. -/
def headerPat : List Char → Bool
  | '#' :: rest => hashThenWs rest
  | _ => false

/-- After the first digit: more digits then a literal dot. -/
def digitsThenDot : List Char → Bool
  | [] => false
  | c :: rest => if c.isDigit then digitsThenDot rest else c = '.'

/-- Anchored `/^\d+\./`. -/
def numberedPat : List Char → Bool
  | c :: rest => c.isDigit && digitsThenDot rest
  | [] => false

/-- Anchored `/^[-*]\s/`. -/
def bulletPat : List Char → Bool
  | c :: d :: _ => (c = '-' || c = '*') && isJsWs d
  | _ => false

/-- Section-type detection of `extractSemanticUnits`
(route.ts lines 380–385), applied to the trimmed section. -/
def SemanticChunker.detectUnitType (s : String) : String :=
  if headerPat s.data then "HEADER"
  else if numberedPat s.data then "NUMBERED_LIST"
  else if bulletPat s.data then "BULLET_LIST"
  else if s.length > 500 then "LONG_PARAGRAPH"
  else "PARAGRAPH"

/-- `SemanticChunker.extractSemanticUnits` (route.ts lines 370–395):
split on `/\n\s*\n/`, trim each section, skip sections shorter than 20
characters, attach the detected type and the original section index. -/
def SemanticChunker.extractSemanticUnits (text : String) : List SemUnit :=
  (splitParas text).enum.filterMap fun p =>
    let sec := trimJS p.2
    if sec.length < 20 then none
    else some { content := sec, type := SemanticChunker.detectUnitType sec,
                index := some p.1 }

/-- `\w` of the declaration regex. -/
def isWordChar (c : Char) : Bool := c.isAlphanum || c = '_'

/-- The keyword alternation of the declaration regex
(route.ts line 328), in source order. -/
def declKeywords : List String :=
  ["function", "class", "interface", "type", "const", "let", "var"]

/-- Match a literal word at the head, returning the rest. -/
def matchWord (w : List Char) (cs : List Char) : Option (List Char) :=
  if listIsPfx w cs then some (cs.drop w.length) else none

/-- `\s+` at the head: length consumed and rest. -/
def wsPlus (cs : List Char) : Option (Nat × List Char) :=
  let w := cs.takeWhile isJsWs
  if w.length = 0 then none else some (w.length, cs.drop w.length)

/-- `kw\s+\w+` at the head for one keyword: consumed length. -/
def kwTry (kw : String) (cs : List Char) : Option Nat :=
  match matchWord kw.data cs with
  | none => none
  | some rest =>
    match wsPlus rest with
    | none => none
    | some (wl, rest2) =>
      let ww := rest2.takeWhile isWordChar
      if ww.length = 0 then none else some (kw.length + wl + ww.length)

/-- The keyword alternation `(?:function|class|…)\s+\w+`: first keyword
that matches, in source order. -/
def kwHead (cs : List Char) : Option Nat :=
  (declKeywords.filterMap (fun kw => kwTry kw cs)).head?

/-- `(?:w\s+)` at the head: consumed length and rest, if it matches. -/
def optWordWs (w : String) (cs : List Char) : Option (Nat × List Char) :=
  match matchWord w.data cs with
  | none => none
  | some rest =>
    match wsPlus rest with
    | none => none
    | some (wl, rest2) => some (w.length + wl, rest2)

/-- `(?:async\s+)?` then the keyword head, with backtracking. -/
def declHeadAsync (cs : List Char) : Option Nat :=
  match optWordWs "async" cs with
  | some (al, cs2) =>
    match kwHead cs2 with
    | some k => some (al + k)
    | none => kwHead cs
  | none => kwHead cs

/-- The head `(?:export\s+)?(?:async\s+)?(?:function|…)\s+\w+` of the
declaration regex (route.ts line 328), with the regex's greedy optional
groups and backtracking: consumed length from this position, if any. -/
def declHead (cs : List Char) : Option Nat :=
  match optWordWs "export" cs with
  | some (el, cs2) =>
    match declHeadAsync cs2 with
    | some n => some (el + n)
    | none => declHeadAsync cs
  | none => declHeadAsync cs

/-- Characters up to (not including) the first `'\n'`. -/
def lineEndIdx : List Char → Nat
  | [] => 0
  | c :: rest => if c = '\n' then 0 else 1 + lineEndIdx rest

/-- One attempt of the declaration regex at the current position.
`atLineStart` says whether `^` (with the `m` flag) holds here.  The lazy
`[\s\S]*?` with lookahead `(?=\n(?:…)|\n\s*$|$)` ends the match at the
first newline-or-end at or after the head, because the multiline `$` of
the third alternative matches before every newline.  Returns the match
length. -/
def declMatchAt (atLineStart : Bool) (cs : List Char) : Option Nat :=
  match (if atLineStart then declHead cs else none) with
  | some h => some (h + lineEndIdx (cs.drop h))
  | none =>
    match cs with
    | '\n' :: rest =>
      match declHead rest with
      | some h => some (1 + h + lineEndIdx (rest.drop h))
      | none => none
    | _ => none

/-- Scan for the next declaration match: returns
`(gap length, match length, suffix after the match)`. -/
def findDeclGo : Nat → Bool → List Char → Option (Nat × Nat × List Char)
  | 0, _, _ => none
  | _ + 1, atStart, [] =>
    match declMatchAt atStart [] with
    | some len => some (0, len, [])
    | none => none
  | fuel + 1, atStart, c :: rest =>
    match declMatchAt atStart (c :: rest) with
    | some len => some (0, len, (c :: rest).drop len)
    | none =>
      match findDeclGo fuel (c = '\n') rest with
      | some (gap, len, suffix) => some (gap + 1, len, suffix)
      | none => none

/-- `getLineNumber` (route.ts lines 598–600): 1-based line of `pos`. -/
def SemanticChunker.getLineNumber (text : List Char) (pos : Nat) : Nat :=
  ((text.take pos).filter (fun c => c = '\n')).length + 1

/-- The match loop of `extractCodeBlocks` (route.ts lines 330–365):
`pos` is the absolute position of the current suffix, `atStart` whether a
multiline `^` holds there. -/
def extractCodeBlocksGo (text : List Char) :
    Nat → Nat → Bool → List SemUnit
  | 0, _, _ => []
  | fuel + 1, pos, atStart =>
    let cs := text.drop pos
    match findDeclGo (cs.length + 1) atStart cs with
    | none =>
      -- remaining content after the last match (route.ts lines 356–365)
      let remainingContent := trimJS (String.mk cs)
      if pos < text.length ∧ remainingContent.length > 50 then
        [{ content := remainingContent, type := "CODE_FRAGMENT",
           startLine := some (SemanticChunker.getLineNumber text pos) }]
      else []
    | some (gap, len, _) =>
      let beforeContent := trimJS (String.mk (cs.take gap))
      let gapBlocks : List SemUnit :=
        if gap > 0 ∧ beforeContent.length > 50 then
          [{ content := beforeContent, type := "CODE_FRAGMENT",
             startLine := some (SemanticChunker.getLineNumber text pos) }]
        else []
      gapBlocks ++
        ({ content := trimJS (String.mk ((cs.drop gap).take len)),
           type := "FUNCTION_OR_CLASS",
           startLine := some (SemanticChunker.getLineNumber text (pos + gap)) } ::
          extractCodeBlocksGo text fuel (pos + gap + len) false)

/-- `SemanticChunker.extractCodeBlocks` (route.ts lines 324–368). -/
def SemanticChunker.extractCodeBlocks (text : String) : List SemUnit :=
  let blocks := extractCodeBlocksGo text.data (text.data.length + 1) 0 true
  if blocks.length > 0 then blocks
  else [{ content := text, type := "SINGLE_BLOCK", startLine := some 1 }]

/-- The code-likeness test of `identifyMixedSections`
(route.ts lines 409–410): the line contains one of the operator characters,
or starts (after optional whitespace) with one of the keywords — the regex
has no trailing boundary, so a keyword prefix such as `functional`
matches. -/
def isCodeLine (line : String) : Bool :=
  line.data.any (fun c =>
    c = '{' || c = '}' || c = '(' || c = ')' || c = ';' || c = '[' ||
    c = ']' || c = '=' || c = '<' || c = '>' || c = '!' || c = '&' ||
    c = '|' || c = '+' || c = '-' || c = '*' || c = '/' || c = '%') ||
  (["function", "class", "import", "export", "const", "let", "var",
    "if", "else", "for", "while", "return"].any
    (fun kw => listIsPfx kw.data (line.data.dropWhile isJsWs)))

/-- The section record of `identifyMixedSections`. -/
structure MixedSection where
  content : String
  type : String
  startLine : Nat
deriving DecidableEq, Repr

/-- Loop of `identifyMixedSections` (route.ts lines 405–435): the state is
`(sections, currentSection, consecutiveCodeLines, consecutiveTextLines)`;
the two counters are updated by the source but never read. -/
def imsLoop :
    List (Nat × String) →
    List MixedSection × MixedSection × Nat × Nat →
    List MixedSection × MixedSection × Nat × Nat
  | [], st => st
  | (i, line) :: rest, (sections, currentSection, ccl, ctl) =>
    if isCodeLine line then
      if currentSection.type = "TEXT" ∧ trimJS currentSection.content ≠ "" then
        imsLoop rest (sections ++ [currentSection],
          { content := line ++ "\n", type := "CODE", startLine := i },
          ccl + 1, 0)
      else
        imsLoop rest (sections,
          { content := currentSection.content ++ line ++ "\n", type := "CODE",
            startLine := currentSection.startLine },
          ccl + 1, 0)
    else
      if currentSection.type = "CODE" ∧ trimJS currentSection.content ≠ "" then
        imsLoop rest (sections ++ [currentSection],
          { content := line ++ "\n", type := "TEXT", startLine := i },
          0, ctl + 1)
      else
        imsLoop rest (sections,
          { content := currentSection.content ++ line ++ "\n", type := "TEXT",
            startLine := currentSection.startLine },
          0, ctl + 1)

/-- `SemanticChunker.identifyMixedSections` (route.ts lines 397–442). -/
def SemanticChunker.identifyMixedSections (text : String) : List MixedSection :=
  match imsLoop (splitNl text).enum
      ([], { content := "", type := "UNKNOWN", startLine := 0 }, 0, 0) with
  | (sections, currentSection, _, _) =>
    if trimJS currentSection.content ≠ "" then sections ++ [currentSection]
    else sections

/-- `createSemanticChunk` (route.ts lines 488–514): join the units (with
`'\n'` for code group types, `'\n\n'` otherwise), count tokens on the
joined content, and build the context parts; the `units[0]?.type` and
`units[0]?.startLine` guards are JS truthiness tests. -/
def SemanticChunker.createSemanticChunk (tc : String → Nat)
    (documentTitle : String) (contentAnalysis : ContentAnalysis)
    (units : List SemUnit) (chunkType : String) : Chunk :=
  let sep := if containsSeg "CODE".data chunkType.data then "\n" else "\n\n"
  let content := String.intercalate sep (units.map (·.content))
  let tokens := tc content
  let base := ["Document: " ++ documentTitle,
               "Type: " ++ ctString contentAnalysis.type,
               "Section: " ++ chunkType]
  let parts1 :=
    match units.head? with
    | some u => if u.type ≠ "" then base ++ ["Content: " ++ u.type] else base
    | none => base
  let parts2 :=
    match units.head? with
    | some u =>
      match u.startLine with
      | some s =>
        if s ≠ 0 then
          parts1 ++ ["Lines: " ++ toString s ++ "-" ++
            toString (orFalsy (units.getLast?.bind (·.startLine)) s)]
        else parts1
      | none => parts1
    | none => parts1
  { content := trimJS content,
    context := String.intercalate " | " parts2,
    tokens := tokens,
    semanticBoundary := chunkType,
    chunkType := ctString contentAnalysis.type }

/-- Walk of `selectOverlapBlocks` from the end of the current chunk
(route.ts lines 521–525): while the accumulated overlap is below the
target, prepend the block and add `block.tokens || 50`. -/
def sobGo (target : Nat) : List SemUnit → Nat → List SemUnit → List SemUnit
  | [], _, accBlocks => accBlocks
  | b :: rest, overlapTokens, accBlocks =>
    if overlapTokens < target then
      sobGo target rest (overlapTokens + orFalsy b.tokens 50) (b :: accBlocks)
    else accBlocks

/-- `selectOverlapBlocks` (route.ts lines 516–528). -/
def SemanticChunker.selectOverlapBlocks (config : ProcessingConfig)
    (currentChunk : List SemUnit) (_nextBlockTokens : Nat) : List SemUnit :=
  sobGo config.OVERLAP_TOKENS currentChunk.reverse 0 []

/-- `createContextualOverlap` (route.ts lines 530–553). -/
def SemanticChunker.createContextualOverlap (currentChunk : List SemUnit)
    (_nextUnit : SemUnit) : Option SemUnit :=
  match currentChunk.getLast? with
  | none => none
  | some lastUnit =>
    if lastUnit.content.length < 200 then some lastUnit
    else
      let sentences :=
        (splitPunct lastUnit.content).filter (fun s => (trimJS s).length > 0)
      match sentences.getLast? with
      | none => none
      | some lastSentence =>
        if lastSentence.length < 150 then
          some { content := trimJS lastSentence, type := "CONTEXT_BRIDGE",
                 index := lastUnit.index }
        else none

/-- Sentence loop of `splitBySentences` (route.ts lines 451–472): the
state is `(chunks, currentChunk, currentTokens)`.  When adding the next
sentence would exceed `MAX_CHUNK_TOKENS` and the buffer is nonempty, the
buffer is flushed as a chunk and up to the last 2 sentences are retained
as overlap; the sentence is then pushed unconditionally. -/
def SemanticChunker.sbsLoop (tc : String → Nat) (config : ProcessingConfig)
    (documentTitle : String) (sectionType : String) :
    List String → List Chunk × List String × Nat →
    List Chunk × List String × Nat
  | [], st => st
  | sentence :: rest, (chunks, currentChunk, currentTokens) =>
    let sentenceTokens := tc sentence
    let st :=
      if currentTokens + sentenceTokens > config.MAX_CHUNK_TOKENS ∧
          currentChunk.length > 0 then
        let content := String.intercalate " " currentChunk
        let overlapSentences := min 2 currentChunk.length
        let kept := currentChunk.drop (currentChunk.length - overlapSentences)
        (chunks ++
          [{ content := trimJS content,
             context := "Document: " ++ documentTitle ++ " (" ++
               sectionType ++ ")",
             tokens := tc content,
             semanticBoundary := "SENTENCE",
             chunkType := sectionType }],
         kept, tc (String.intercalate " " kept))
      else (chunks, currentChunk, currentTokens)
    match st with
    | (chunks', cur', tok') =>
      SemanticChunker.sbsLoop tc config documentTitle sectionType rest
        (chunks', cur' ++ [sentence], tok' + sentenceTokens)

/-- `SemanticChunker.splitBySentences` (route.ts lines 444–486). -/
def SemanticChunker.splitBySentences (tc : String → Nat)
    (config : ProcessingConfig) (documentTitle : String) (text : String)
    (sectionType : String) : List Chunk :=
  let sentences := (splitSentences text).filter (fun s => (trimJS s).length > 0)
  match SemanticChunker.sbsLoop tc config documentTitle sectionType
      sentences ([], [], 0) with
  | (chunks, currentChunk, _) =>
    if currentChunk.length > 0 then
      chunks ++
        [{ content := trimJS (String.intercalate " " currentChunk),
           context := "Document: " ++ documentTitle ++ " (" ++
             sectionType ++ ")",
           tokens := tc (String.intercalate " " currentChunk),
           semanticBoundary := "SENTENCE",
           chunkType := sectionType }]
    else chunks

/-- Line loop of `splitLargeCodeBlock` (route.ts lines 563–582). -/
def SemanticChunker.slcbLoop (tc : String → Nat) (config : ProcessingConfig)
    (documentTitle : String) (blockStartLine : Option Nat) :
    List String → List Chunk × List String × Nat →
    List Chunk × List String × Nat
  | [], st => st
  | line :: rest, (chunks, currentChunk, currentTokens) =>
    let lineTokens := tc line
    if currentTokens + lineTokens > config.MAX_CHUNK_TOKENS ∧
        currentChunk.length > 0 then
      let content := String.intercalate "\n" currentChunk
      SemanticChunker.slcbLoop tc config documentTitle blockStartLine rest
        (chunks ++
          [{ content := trimJS content,
             context := "Document: " ++ documentTitle ++
               " | Code Block | Lines: " ++
               (match blockStartLine with
                | some n => toString n
                | none => "undefined"),
             tokens := tc content,
             semanticBoundary := "CODE_LINES",
             chunkType := "CODE" }],
         [line], lineTokens)
    else
      SemanticChunker.slcbLoop tc config documentTitle blockStartLine rest
        (chunks, currentChunk ++ [line], currentTokens + lineTokens)

/-- `SemanticChunker.splitLargeCodeBlock` (route.ts lines 555–596). -/
def SemanticChunker.splitLargeCodeBlock (tc : String → Nat)
    (config : ProcessingConfig) (documentTitle : String) (block : SemUnit) :
    List Chunk :=
  let lines := splitNl block.content
  match SemanticChunker.slcbLoop tc config documentTitle block.startLine
      lines ([], [], 0) with
  | (chunks, currentChunk, _) =>
    if currentChunk.length > 0 then
      chunks ++
        [{ content := trimJS (String.intercalate "\n" currentChunk),
           context := "Document: " ++ documentTitle ++
             " | Code Block | Lines: " ++
             (match block.startLine with
              | some n => toString n
              | none => "undefined"),
           tokens := tc (String.intercalate "\n" currentChunk),
           semanticBoundary := "CODE_LINES",
           chunkType := "CODE" }]
    else chunks

/-- Block loop of `chunkCode` (route.ts lines 214–244). -/
def SemanticChunker.ccLoop (tc : String → Nat) (config : ProcessingConfig)
    (documentTitle : String) (contentAnalysis : ContentAnalysis) :
    List SemUnit → List Chunk × List SemUnit × Nat →
    List Chunk × List SemUnit × Nat
  | [], st => st
  | block :: rest, (chunks, currentChunk, currentTokens) =>
    let blockTokens := tc block.content
    if blockTokens > config.MAX_CHUNK_TOKENS then
      let chunks :=
        if currentChunk.length > 0 then
          chunks ++ [SemanticChunker.createSemanticChunk tc documentTitle
            contentAnalysis currentChunk "CODE_BLOCK_GROUP"]
        else chunks
      let chunks := chunks ++
        SemanticChunker.splitLargeCodeBlock tc config documentTitle block
      SemanticChunker.ccLoop tc config documentTitle contentAnalysis rest
        (chunks, [], 0)
    else if currentTokens + blockTokens > config.MAX_CHUNK_TOKENS ∧
        currentChunk.length > 0 then
      let chunks := chunks ++ [SemanticChunker.createSemanticChunk tc
        documentTitle contentAnalysis currentChunk "CODE_BLOCK_GROUP"]
      let overlapBlocks :=
        SemanticChunker.selectOverlapBlocks config currentChunk blockTokens
      let currentChunk := overlapBlocks ++ [block]
      SemanticChunker.ccLoop tc config documentTitle contentAnalysis rest
        (chunks, currentChunk,
          tc (String.intercalate "\n" (currentChunk.map (·.content))))
    else
      SemanticChunker.ccLoop tc config documentTitle contentAnalysis rest
        (chunks, currentChunk ++ [block], currentTokens + blockTokens)

/-- `SemanticChunker.chunkCode` (route.ts lines 205–252). -/
def SemanticChunker.chunkCode (tc : String → Nat)
    (config : ProcessingConfig) (documentTitle : String)
    (contentAnalysis : ContentAnalysis) (text : String) : List Chunk :=
  let codeBlocks := SemanticChunker.extractCodeBlocks text
  match SemanticChunker.ccLoop tc config documentTitle contentAnalysis
      codeBlocks ([], [], 0) with
  | (chunks, currentChunk, _) =>
    if currentChunk.length > 0 then
      chunks ++ [SemanticChunker.createSemanticChunk tc documentTitle
        contentAnalysis currentChunk "CODE_BLOCK_GROUP"]
    else chunks

/-- Unit loop of `chunkNaturalLanguage` (route.ts lines 263–290). -/
def SemanticChunker.cnlLoop (tc : String → Nat) (config : ProcessingConfig)
    (documentTitle : String) (contentAnalysis : ContentAnalysis) :
    List SemUnit → List Chunk × List SemUnit × Nat →
    List Chunk × List SemUnit × Nat
  | [], st => st
  | unit :: rest, (chunks, currentChunk, currentTokens) =>
    let unitTokens := tc unit.content
    if unitTokens > config.MAX_CHUNK_TOKENS then
      let chunks :=
        if currentChunk.length > 0 then
          chunks ++ [SemanticChunker.createSemanticChunk tc documentTitle
            contentAnalysis currentChunk "PARAGRAPH_GROUP"]
        else chunks
      let chunks := chunks ++ SemanticChunker.splitBySentences tc config
        documentTitle unit.content unit.type
      SemanticChunker.cnlLoop tc config documentTitle contentAnalysis rest
        (chunks, [], 0)
    else if currentTokens + unitTokens > config.MAX_CHUNK_TOKENS ∧
        currentChunk.length > 0 then
      let chunks := chunks ++ [SemanticChunker.createSemanticChunk tc
        documentTitle contentAnalysis currentChunk "PARAGRAPH_GROUP"]
      let contextUnit :=
        SemanticChunker.createContextualOverlap currentChunk unit
      let currentChunk :=
        match contextUnit with
        | some cu => [cu, unit]
        | none => [unit]
      SemanticChunker.cnlLoop tc config documentTitle contentAnalysis rest
        (chunks, currentChunk,
          tc (String.intercalate "\n\n" (currentChunk.map (·.content))))
    else
      SemanticChunker.cnlLoop tc config documentTitle contentAnalysis rest
        (chunks, currentChunk ++ [unit], currentTokens + unitTokens)

/-- `SemanticChunker.chunkNaturalLanguage` (route.ts lines 254–297). -/
def SemanticChunker.chunkNaturalLanguage (tc : String → Nat)
    (config : ProcessingConfig) (documentTitle : String)
    (contentAnalysis : ContentAnalysis) (text : String) : List Chunk :=
  let semanticUnits := SemanticChunker.extractSemanticUnits text
  match SemanticChunker.cnlLoop tc config documentTitle contentAnalysis
      semanticUnits ([], [], 0) with
  | (chunks, currentChunk, _) =>
    if currentChunk.length > 0 then
      chunks ++ [SemanticChunker.createSemanticChunk tc documentTitle
        contentAnalysis currentChunk "PARAGRAPH_GROUP"]
    else chunks

/-- `SemanticChunker.chunkMixed` (route.ts lines 299–315). -/
def SemanticChunker.chunkMixed (tc : String → Nat)
    (config : ProcessingConfig) (documentTitle : String)
    (contentAnalysis : ContentAnalysis) (text : String) : List Chunk :=
  (SemanticChunker.identifyMixedSections text).flatMap fun s =>
    if s.type = "CODE" then
      SemanticChunker.chunkCode tc config documentTitle contentAnalysis
        s.content
    else
      SemanticChunker.chunkNaturalLanguage tc config documentTitle
        contentAnalysis s.content

/-- `SemanticChunker.chunkFallback` (route.ts lines 317–320). -/
def SemanticChunker.chunkFallback (tc : String → Nat)
    (config : ProcessingConfig) (documentTitle : String) (text : String) :
    List Chunk :=
  SemanticChunker.splitBySentences tc config documentTitle text "UNKNOWN"

/-- `SemanticChunker.chunkIntelligently` (route.ts lines 184–203): the
strategy switch on the detected content type.  `tc` is the accurate token
counter `getAccurateTokenCount` (the cl100k tokenizer of `gpt-tokenizer`),
taken as a function parameter. -/
def SemanticChunker.chunkIntelligently (tc : String → Nat)
    (config : ProcessingConfig) (documentTitle : String)
    (contentAnalysis : ContentAnalysis) (text : String) : List Chunk :=
  match contentAnalysis.type with
  | .CODE =>
    SemanticChunker.chunkCode tc config documentTitle contentAnalysis text
  | .NATURAL_LANGUAGE =>
    SemanticChunker.chunkNaturalLanguage tc config documentTitle
      contentAnalysis text
  | .MIXED =>
    SemanticChunker.chunkMixed tc config documentTitle contentAnalysis text
  | .UNKNOWN =>
    SemanticChunker.chunkFallback tc config documentTitle text

/-! ## Concrete instances for the chunker claims -/

/-- Stand-in for the accurate tokenizer `getAccurateTokenCount` at concrete
inputs: one token per character.  It satisfies the Token Estimator contract
of the spec (monotone in length, nonzero on nonempty text, and an upper
bound of the true cl100k count, so it never undercounts); the structural
facts proved with it do not depend on the tokenizer's exact values. -/
def charCount : String → Nat := String.length

/-- An `UNKNOWN` classification record (the shape returned by
`ContentAnalyzer.analyzeContent` for signal-free text). -/
def analysisUNKNOWN : ContentAnalysis :=
  { type := .UNKNOWN, confidence := 3/10,
    characteristics :=
      { codeRatio := 0, naturalLanguageRatio := 0, structureComplexity := 0 } }

/-- A `NATURAL_LANGUAGE` classification record. -/
def analysisNATURAL : ContentAnalysis :=
  { type := .NATURAL_LANGUAGE, confidence := 95/100,
    characteristics :=
      { codeRatio := 0, naturalLanguageRatio := 1/4,
        structureComplexity := 0 } }

/-- A single 401-character sentence with no sentence boundary: longer than
the small-tier limit of 400 tokens under `charCount`. -/
def c1text : String := String.mk (List.replicate 401 'a')

set_option maxRecDepth 10000

/-- C1 counterexample: on a single sentence of 401 characters (no split
point), with the `UNKNOWN` fallback strategy and the small-tier
configuration (`MAX_CHUNK_TOKENS = 400`), `chunkIntelligently` emits
exactly one chunk whose `tokens` field is 401 > 400: `splitBySentences`
never splits below sentence granularity (there is no line- or word-level
fallback), so the bound is violated. -/
theorem chunkIntelligently_token_bound_violated :
    ((SemanticChunker.chunkIntelligently charCount
        (AdaptiveConfig.getConfig c1text.length .UNKNOWN) "Doc"
        analysisUNKNOWN c1text).map Chunk.tokens = [401]) ∧
    (AdaptiveConfig.getConfig c1text.length .UNKNOWN).MAX_CHUNK_TOKENS =
      400 := by
  constructor
  · decide
  · decide

/-- C6 counterexample: the middle paragraph `droppedbit` (trimmed length
10 < 20) is a span of the input but `extractSemanticUnits` silently drops
it, so it occurs in no produced chunk: concatenating all chunk contents in
any order cannot reconstruct the input. -/
def c6text : String :=
  "This paragraph is long enough to keep around.\n\ndroppedbit\n\nAnother paragraph that is also long enough."

theorem chunkIntelligently_coverage_violated :
    containsSeg "droppedbit".data c6text.data = true ∧
    (SemanticChunker.chunkIntelligently charCount
        (AdaptiveConfig.getConfig c6text.length .NATURAL_LANGUAGE) "Doc"
        analysisNATURAL c6text).all
      (fun c => !(containsSeg "droppedbit".data c.content.data)) = true := by
  constructor
  · decide
  · decide

/-- C9: chunking is deterministic — the embedding of
`SemanticChunker.chunkIntelligently` is a pure function of the token
counter, configuration, document title, classification and text (the
source consults no randomness and no clock), so two calls with identical
arguments yield identical output sequences. -/
theorem chunkIntelligently_deterministic (tc : String → Nat)
    (config : ProcessingConfig) (documentTitle : String)
    (ca : ContentAnalysis) (t1 t2 : String) (h : t1 = t2) :
    SemanticChunker.chunkIntelligently tc config documentTitle ca t1 =
      SemanticChunker.chunkIntelligently tc config documentTitle ca t2 := by
  rw [h]

/-- Witness for `chunkIntelligently_deterministic` at a concrete input. -/
theorem chunkIntelligently_deterministic_witness :
    ("One. Two." : String) = "One. Two." ∧
    SemanticChunker.chunkIntelligently charCount
        (AdaptiveConfig.getConfig 9 .UNKNOWN) "Doc" analysisUNKNOWN
        "One. Two." =
      SemanticChunker.chunkIntelligently charCount
        (AdaptiveConfig.getConfig 9 .UNKNOWN) "Doc" analysisUNKNOWN
        "One. Two." :=
  ⟨rfl, chunkIntelligently_deterministic charCount
    (AdaptiveConfig.getConfig 9 .UNKNOWN) "Doc" analysisUNKNOWN
    "One. Two." "One. Two." rfl⟩

theorem extractSemanticUnits_sections_aux :
    ∀ (l : List String) (k : Nat),
      ((List.enumFrom k l).filterMap (fun p =>
        let sec := trimJS p.2
        if sec.length < 20 then none
        else some ({ content := sec, type := SemanticChunker.detectUnitType sec,
                     index := some p.1 } : SemUnit))).map SemUnit.content =
      (l.map trimJS).filter (fun s => decide (20 ≤ s.length)) := by
  intro l
  induction l with
  | nil => intro k; rfl
  | cons a l ih =>
    intro k
    rw [List.enumFrom_cons, List.filterMap_cons, List.map_cons,
      List.filter_cons]
    dsimp only
    by_cases h : (trimJS a).length < 20
    · have hd : (decide (20 ≤ (trimJS a).length)) = false := by
        simp only [decide_eq_false_iff_not, not_le]
        omega
      simp [if_pos h, hd, ih (k + 1)]
    · have hd : (decide (20 ≤ (trimJS a).length)) = true := by
        simp only [decide_eq_true_eq]
        omega
      simp [if_neg h, hd, ih (k + 1)]

/-- C6 amended: concatenating chunk contents does not reconstruct the
input.  What holds: the natural-language path keeps exactly the
`/\n\s*\n/`-separated sections whose trimmed length is at least 20
characters, trimmed, in order — shorter sections are silently dropped and
appear in no chunk (and the code path likewise drops inter-declaration
fragments of trimmed length at most 50); coverage holds only for the kept
sections, up to whitespace normalization at split points. -/
theorem extractSemanticUnits_keeps_long_sections (text : String) :
    (SemanticChunker.extractSemanticUnits text).map SemUnit.content =
      ((splitParas text).map trimJS).filter
        (fun s => decide (20 ≤ s.length)) := by
  unfold SemanticChunker.extractSemanticUnits
  rw [List.enum_eq_enumFrom]
  exact extractSemanticUnits_sections_aux (splitParas text) 0

/-- The chunk record `splitLargeCodeBlock` builds from one buffered group
of consecutive lines (route.ts lines 567–574 and 584–592). -/
def slcbChunk (tc : String → Nat) (documentTitle : String)
    (blockStartLine : Option Nat) (g : List String) : Chunk :=
  { content := trimJS (String.intercalate "\n" g),
    context := "Document: " ++ documentTitle ++ " | Code Block | Lines: " ++
      (match blockStartLine with
       | some n => toString n
       | none => "undefined"),
    tokens := tc (String.intercalate "\n" g),
    semanticBoundary := "CODE_LINES",
    chunkType := "CODE" }

theorem slcbLoop_nil (tc : String → Nat) (config : ProcessingConfig)
    (documentTitle : String) (blockStartLine : Option Nat)
    (st : List Chunk × List String × Nat) :
    SemanticChunker.slcbLoop tc config documentTitle blockStartLine [] st =
      st := rfl

theorem slcbLoop_cons (tc : String → Nat) (config : ProcessingConfig)
    (documentTitle : String) (blockStartLine : Option Nat) (line : String)
    (rest : List String) (chunks : List Chunk) (cur : List String)
    (tok : Nat) :
    SemanticChunker.slcbLoop tc config documentTitle blockStartLine
        (line :: rest) (chunks, cur, tok) =
      if tok + tc line > config.MAX_CHUNK_TOKENS ∧ cur.length > 0 then
        SemanticChunker.slcbLoop tc config documentTitle blockStartLine rest
          (chunks ++ [slcbChunk tc documentTitle blockStartLine cur],
            [line], tc line)
      else
        SemanticChunker.slcbLoop tc config documentTitle blockStartLine rest
          (chunks, cur ++ [line], tok + tc line) := rfl

theorem slcbLoop_groups (tc : String → Nat) (config : ProcessingConfig)
    (documentTitle : String) (blockStartLine : Option Nat) :
    ∀ (lines : List String) (chunks : List Chunk) (cur : List String)
      (tok : Nat),
      tok = (cur.map tc).sum →
      (cur = [] ∨ cur.length = 1 ∨
        (cur.map tc).sum ≤ config.MAX_CHUNK_TOKENS) →
      ∃ gs : List (List String),
        (SemanticChunker.slcbLoop tc config documentTitle blockStartLine
            lines (chunks, cur, tok)).1 =
          chunks ++ gs.map (slcbChunk tc documentTitle blockStartLine) ∧
        gs.flatten ++ (SemanticChunker.slcbLoop tc config documentTitle
            blockStartLine lines (chunks, cur, tok)).2.1 = cur ++ lines ∧
        (SemanticChunker.slcbLoop tc config documentTitle blockStartLine
            lines (chunks, cur, tok)).2.2 =
          (((SemanticChunker.slcbLoop tc config documentTitle blockStartLine
            lines (chunks, cur, tok)).2.1).map tc).sum ∧
        ((SemanticChunker.slcbLoop tc config documentTitle blockStartLine
            lines (chunks, cur, tok)).2.1 = [] ∨
          (SemanticChunker.slcbLoop tc config documentTitle blockStartLine
            lines (chunks, cur, tok)).2.1.length = 1 ∨
          (((SemanticChunker.slcbLoop tc config documentTitle blockStartLine
            lines (chunks, cur, tok)).2.1).map tc).sum ≤
            config.MAX_CHUNK_TOKENS) ∧
        (∀ g ∈ gs, g ≠ [] ∧
          (g.length = 1 ∨ (g.map tc).sum ≤ config.MAX_CHUNK_TOKENS)) := by
  intro lines
  induction lines with
  | nil =>
    intro chunks cur tok htok hcur
    refine ⟨[], ?_, ?_, ?_, ?_, ?_⟩
    · simp [slcbLoop_nil]
    · simp [slcbLoop_nil]
    · simpa [slcbLoop_nil] using htok
    · simpa [slcbLoop_nil] using hcur
    · intro g hg
      simp at hg
  | cons line rest ih =>
    intro chunks cur tok htok hcur
    rw [slcbLoop_cons]
    split_ifs with hcond
    · obtain ⟨gs', h1, h2, h3, h4, h5⟩ := ih
        (chunks ++ [slcbChunk tc documentTitle blockStartLine cur]) [line]
        (tc line) (by simp) (Or.inr (Or.inl rfl))
      refine ⟨cur :: gs', ?_, ?_, h3, h4, ?_⟩
      · rw [h1]
        simp
      · rw [List.flatten_cons, List.append_assoc, h2]
        simp
      · intro g hg
        rcases List.mem_cons.mp hg with rfl | hg'
        · refine ⟨?_, ?_⟩
          · intro hnil
            rw [hnil] at hcond
            simp at hcond
          · rcases hcur with hnil | hone | hle
            · rw [hnil] at hcond
              simp at hcond
            · exact Or.inl hone
            · exact Or.inr hle
        · exact h5 g hg'
    · obtain ⟨gs', h1, h2, h3, h4, h5⟩ := ih chunks (cur ++ [line])
        (tok + tc line) (by simp [htok])
        (by
          push_neg at hcond
          by_cases hnil : cur = []
          · subst hnil
            exact Or.inr (Or.inl rfl)
          · have hlen : cur.length > 0 := List.length_pos.mpr hnil
            have hle : tok + tc line ≤ config.MAX_CHUNK_TOKENS := by
              rcases Nat.lt_or_ge config.MAX_CHUNK_TOKENS (tok + tc line)
                with hgt | hge
              · have := hcond hgt
                omega
              · exact hge
            refine Or.inr (Or.inr ?_)
            simp only [List.map_append, List.sum_append, List.map_cons,
              List.map_nil, List.sum_cons, List.sum_nil]
            simp only [htok] at hle
            omega)
      refine ⟨gs', h1, ?_, h3, h4, h5⟩
      rw [h2]
      simp

theorem splitLargeCodeBlock_eq (tc : String → Nat)
    (config : ProcessingConfig) (documentTitle : String) (block : SemUnit) :
    SemanticChunker.splitLargeCodeBlock tc config documentTitle block =
      (match SemanticChunker.slcbLoop tc config documentTitle
          block.startLine (splitNl block.content) ([], [], 0) with
       | (chunks, currentChunk, _) =>
         if currentChunk.length > 0 then
           chunks ++ [slcbChunk tc documentTitle block.startLine currentChunk]
         else chunks) := rfl

/-- C1 amended: the chunker does not guarantee `tokens ≤ MAX_CHUNK_TOKENS`
for every chunk — a single sentence (natural-language path) or single line
(code path) exceeding the limit is emitted whole, with no finer word-level
fallback, and the sentence path's retained overlap is injected unchecked.
What holds, proved here for the code path's `splitLargeCodeBlock`: its
output is exactly the image of an in-order partition of the block's lines
(`splitNl block.content` — no line dropped, none duplicated), one chunk
per group (content and token count computed from the group's
newline-join), and every group is a single line or keeps the sum of its
per-line token counts within `MAX_CHUNK_TOKENS` — the flush happens
before the running per-line budget is exceeded. -/
theorem splitLargeCodeBlock_line_budget (tc : String → Nat)
    (config : ProcessingConfig) (documentTitle : String) (block : SemUnit) :
    ∃ gs : List (List String),
      gs.flatten = splitNl block.content ∧
      SemanticChunker.splitLargeCodeBlock tc config documentTitle block =
        gs.map (slcbChunk tc documentTitle block.startLine) ∧
      ∀ g ∈ gs, g ≠ [] ∧
        (g.length = 1 ∨ (g.map tc).sum ≤ config.MAX_CHUNK_TOKENS) := by
  obtain ⟨gs', h1, h2, h3, h4, h5⟩ :=
    slcbLoop_groups tc config documentTitle block.startLine
      (splitNl block.content) [] [] 0 rfl (Or.inl rfl)
  rw [splitLargeCodeBlock_eq]
  rcases hres : SemanticChunker.slcbLoop tc config documentTitle
      block.startLine (splitNl block.content) ([], [], 0)
    with ⟨chunks, cur, tok⟩
  rw [hres] at h1 h2 h3 h4
  dsimp only at h1 h2 h3 h4 ⊢
  simp only [List.nil_append] at h1 h2
  by_cases hlen : cur.length > 0
  · rw [if_pos hlen]
    have hne : cur ≠ [] := by
      intro hnil
      rw [hnil] at hlen
      simp at hlen
    refine ⟨gs' ++ [cur], ?_, ?_, ?_⟩
    · rw [List.flatten_append]
      simpa using h2
    · rw [h1, List.map_append]
      rfl
    · intro g hg
      rcases List.mem_append.mp hg with hg' | hg''
      · exact h5 g hg'
      · rcases List.mem_singleton.mp hg'' with rfl
        refine ⟨hne, ?_⟩
        rcases h4 with hnil | hone | hle
        · exact absurd hnil hne
        · exact Or.inl hone
        · exact Or.inr hle
  · rw [if_neg hlen]
    have hnil : cur = [] := by
      cases cur with
      | nil => rfl
      | cons a l => simp at hlen
    subst hnil
    refine ⟨gs', by simpa using h2, h1, h5⟩

/-! ## The ingestion orchestrator (the `POST` handler) -/

/-- A row of the `documents` table — the fields the route reads or
writes. -/
structure DocRow where
  id : String
  project_id : String
  name : String
  status : String
deriving DecidableEq, Repr

/-- `.update({ status, updated_at }).eq("id", documentId)` (route.ts
lines 806–809, 867–870, 903–906): every row whose `id` matches gets the
new status.  The filter is on `id` alone — `project_id` is not checked. -/
def setStatus (db : List DocRow) (documentId : String) (status : String) :
    List DocRow :=
  db.map fun r => if r.id = documentId then { r with status := status } else r

/-- `.select(…).eq("id", documentId).eq("project_id", projectId).single()`
(route.ts lines 800–805): the first row matching both filters. -/
def findDoc (db : List DocRow) (documentId projectId : String) :
    Option DocRow :=
  db.find? fun r => r.id == documentId && r.project_id == projectId

/-- The throw sites of `extractTextOptimized` (route.ts lines 919–947). -/
inductive ExtractErr where
  | fetchFailed (status : Nat)
  | unsupportedType (mimeType : String)
  | parserFailed (message : String)
deriving DecidableEq, Repr

/-- The error classes of the `POST` handler's throw sites; the `catch`
at route.ts lines 898–915 reports them as
`Processing failed: ${error.message}`. -/
inductive ErrClass where
  | DocumentNotFound
  | ExtractionFailed (e : ExtractErr)
  | EmptyContent
  | NoChunks
  | EmbeddingBatchFailed (message : String)
deriving DecidableEq, Repr

/-- The `error.message` each class carries (route.ts lines 814, 824–825,
843, 921–922, 945, and the rethrown parser/embedding messages). -/
def errMessage : ErrClass → String
  | .DocumentNotFound => "Document not found: "
  | .ExtractionFailed (.fetchFailed st) => "Failed to fetch: " ++ toString st
  | .ExtractionFailed (.unsupportedType mt) => "Unsupported file type: " ++ mt
  | .ExtractionFailed (.parserFailed m) => m
  | .EmptyContent => "No text content extracted"
  | .NoChunks => "No chunks created"
  | .EmbeddingBatchFailed m => m

/-- The responses of the `POST` handler. -/
inductive PostResponse where
  | json500ApiKeyMissing
  | json400MissingIds
  | ok (chunksCreated : Nat) (textLength : Nat)
  | err500 (e : ErrClass)
deriving DecidableEq, Repr

/-- The environment of one `POST` invocation: request contents and the
outcomes of the external calls.  `analysis` stands for
`ContentAnalyzer.analyzeContent(textContent)` (a pure function of the
text), `tc` for `getAccurateTokenCount`, and `embed` for
`processor.processAllChunks` — `.ok n` when all batches persist `n`
chunks, `.error m` when a batch exhausts its retries and the error
escapes. -/
structure PostEnv where
  apiKeyPresent : Bool
  ids : Option (String × String)
  extractResult : Except ExtractErr String
  analysis : ContentAnalysis
  tc : String → Nat
  embed : List Chunk → Except String Nat

/-- JavaScript `s || d` on strings (`document.name || "Unknown Document"`,
route.ts line 839). -/
def orFalsyStr (s d : String) : String := if s = "" then d else s

/-- The observable outcome of one `POST` invocation: the HTTP response,
the final `documents` table, whether the oversized-chunk warning
(route.ts line 858) fired, and the chunk list handed to
`processAllChunks` (route.ts line 864), if that call was reached. -/
structure PostResult where
  response : PostResponse
  db : List DocRow
  warnedOversized : Bool
  embedInput : Option (List Chunk)
deriving DecidableEq, Repr

/-- The chunk list the handler computes (route.ts lines 839–840). -/
def POSTchunks (env : PostEnv) (document : DocRow) (textContent : String) :
    List Chunk :=
  SemanticChunker.chunkIntelligently env.tc
    (AdaptiveConfig.getConfig textContent.length env.analysis.type)
    (orFalsyStr document.name "Unknown Document") env.analysis textContent

/-- `POST` (route.ts lines 770–916).  The `Promise.all` at lines 799–810
issues the document fetch and the `status: "processing"` update
concurrently; the fetch filters on `id` and `project_id`, the update on
`id` alone.  Every thrown error lands in the `catch` (lines 898–915),
which sets `status: "failed"` by `id` and returns a 500.  The "Safety
check" at lines 855–859 only counts chunks over 500 tokens and logs a
warning — it does not abort. -/
def POSTmodel (env : PostEnv) (db : List DocRow) : PostResult :=
  if env.apiKeyPresent = false then
    { response := .json500ApiKeyMissing, db := db, warnedOversized := false,
      embedInput := none }
  else
    match env.ids with
    | none =>
      { response := .json400MissingIds, db := db, warnedOversized := false,
        embedInput := none }
    | some (documentId, projectId) =>
      let db1 := setStatus db documentId "processing"
      match findDoc db documentId projectId with
      | none =>
        { response := .err500 .DocumentNotFound,
          db := setStatus db1 documentId "failed",
          warnedOversized := false, embedInput := none }
      | some document =>
        match env.extractResult with
        | .error e =>
          { response := .err500 (.ExtractionFailed e),
            db := setStatus db1 documentId "failed",
            warnedOversized := false, embedInput := none }
        | .ok textContent =>
          if trimJS textContent = "" then
            { response := .err500 .EmptyContent,
              db := setStatus db1 documentId "failed",
              warnedOversized := false, embedInput := none }
          else
            let chunks := POSTchunks env document textContent
            if chunks.length = 0 then
              { response := .err500 .NoChunks,
                db := setStatus db1 documentId "failed",
                warnedOversized := false, embedInput := none }
            else
              let oversizedChunks :=
                chunks.filter (fun c => decide (c.tokens > 500))
              let warned := decide (oversizedChunks.length > 0)
              match env.embed chunks with
              | .error m =>
                { response := .err500 (.EmbeddingBatchFailed m),
                  db := setStatus db1 documentId "failed",
                  warnedOversized := warned, embedInput := some chunks }
              | .ok processedCount =>
                { response := .ok processedCount textContent.length,
                  db := setStatus db1 documentId "completed",
                  warnedOversized := warned, embedInput := some chunks }

theorem setStatus_not_present {db : List DocRow} {documentId : String}
    (h : ∀ r ∈ db, r.id ≠ documentId) (s : String) :
    setStatus db documentId s = db := by
  unfold setStatus
  have : ∀ r ∈ db,
      (if r.id = documentId then { r with status := s } else r) = r := by
    intro r hr
    rw [if_neg (h r hr)]
  rw [List.map_congr_left this]
  simp

theorem mem_setStatus {db : List DocRow} {document : DocRow}
    (hmem : document ∈ db) (hid : document.id = documentId) (s : String) :
    { document with status := s } ∈ setStatus db documentId s := by
  unfold setStatus
  have : { document with status := s } =
      (fun r => if r.id = documentId then { r with status := s } else r)
        document := by
    dsimp only
    rw [if_pos hid]
  rw [this]
  exact List.mem_map_of_mem _ hmem

theorem findDoc_mem {db : List DocRow} {documentId projectId : String}
    {document : DocRow}
    (h : findDoc db documentId projectId = some document) :
    document ∈ db ∧ document.id = documentId := by
  unfold findDoc at h
  refine ⟨List.mem_of_find?_eq_some h, ?_⟩
  have := List.find?_some h
  simp only [Bool.and_eq_true, beq_iff_eq] at this
  exact this.1

/-- C5: when the `{documentId, projectId}` pair resolves and extraction
succeeds but yields no usable text (zero-byte or whitespace-only, i.e.
`textContent.trim()` is empty), the run ends with the 500 response
carrying the `EmptyContent` class (`"No text content extracted"`), a
class distinct from every `ExtractionFailed` variant; the document row is
marked `failed` (via the concurrent `processing` update and the failure
handler); and the response is never `completed` with any
`chunksCreated` count. -/
theorem POST_empty_content (env : PostEnv) (db : List DocRow)
    (documentId projectId : String) (document : DocRow)
    (textContent : String)
    (hkey : env.apiKeyPresent = true)
    (hids : env.ids = some (documentId, projectId))
    (hdoc : findDoc db documentId projectId = some document)
    (hext : env.extractResult = .ok textContent)
    (hempty : trimJS textContent = "") :
    (POSTmodel env db).response = .err500 .EmptyContent ∧
    (POSTmodel env db).db =
      setStatus (setStatus db documentId "processing") documentId "failed" ∧
    { document with status := "failed" } ∈ (POSTmodel env db).db ∧
    (∀ e : ExtractErr, ErrClass.EmptyContent ≠ ErrClass.ExtractionFailed e) ∧
    (∀ n tl, (POSTmodel env db).response ≠ .ok n tl) := by
  have hmodel : POSTmodel env db =
      { response := .err500 .EmptyContent,
        db := setStatus (setStatus db documentId "processing") documentId
          "failed",
        warnedOversized := false, embedInput := none } := by
    unfold POSTmodel
    rw [hkey, hids]
    dsimp only
    rw [hdoc]
    dsimp only
    rw [hext]
    simp [hempty]
  obtain ⟨hmem, hid⟩ := findDoc_mem hdoc
  refine ⟨by rw [hmodel], by rw [hmodel], ?_, ?_, ?_⟩
  · rw [hmodel]
    have h1 : ({ document with status := "processing" } : DocRow) ∈
        setStatus db documentId "processing" := mem_setStatus hmem hid _
    have h2 : ({ document with status := "failed" } : DocRow) ∈
        setStatus (setStatus db documentId "processing") documentId
          "failed" := mem_setStatus h1 hid "failed"
    exact h2
  · intro e h
    cases h
  · intro n tl h
    rw [hmodel] at h
    cases h

/-- Concrete document table for the orchestrator witnesses. -/
def dbW : List DocRow :=
  [{ id := "d1", project_id := "p1", name := "Doc", status := "pending" }]

/-- Environment for the `EmptyContent` witness: a whitespace-only file. -/
def envC5 : PostEnv :=
  { apiKeyPresent := true, ids := some ("d1", "p1"),
    extractResult := .ok "  \n  ", analysis := analysisUNKNOWN,
    tc := charCount, embed := fun chunks => .ok chunks.length }

/-- Witness for `POST_empty_content`. -/
theorem POST_empty_content_witness :
    envC5.apiKeyPresent = true ∧
    envC5.ids = some ("d1", "p1") ∧
    findDoc dbW "d1" "p1" =
      some { id := "d1", project_id := "p1", name := "Doc",
             status := "pending" } ∧
    envC5.extractResult = .ok "  \n  " ∧
    trimJS "  \n  " = "" ∧
    ((POSTmodel envC5 dbW).response = .err500 .EmptyContent ∧
     (POSTmodel envC5 dbW).db =
       setStatus (setStatus dbW "d1" "processing") "d1" "failed" ∧
     ({ id := "d1", project_id := "p1", name := "Doc",
        status := "failed" } : DocRow) ∈ (POSTmodel envC5 dbW).db ∧
     (∀ e : ExtractErr,
       ErrClass.EmptyContent ≠ ErrClass.ExtractionFailed e) ∧
     (∀ n tl, (POSTmodel envC5 dbW).response ≠ .ok n tl)) :=
  ⟨rfl, rfl, by decide, rfl, by decide,
    POST_empty_content envC5 dbW "d1" "p1"
      { id := "d1", project_id := "p1", name := "Doc", status := "pending" }
      "  \n  " rfl rfl (by decide) rfl (by decide)⟩

/-- Environment for the C4 counterexample: the caller supplies an
existing `documentId` under the wrong `projectId`. -/
def envC4 : PostEnv :=
  { apiKeyPresent := true, ids := some ("d1", "p2"),
    extractResult := .ok "irrelevant", analysis := analysisUNKNOWN,
    tc := charCount, embed := fun chunks => .ok chunks.length }

/-- C4 counterexample: for the pair `(d1, p2)` the document does not
resolve (`d1` belongs to project `p1`), and the endpoint does surface a
structured `DocumentNotFound` error — but the document row IS mutated:
the concurrent `status: "processing"` update and the failure handler both
filter on `id` alone, leaving the row's status `failed` instead of its
original `pending`. -/
theorem POST_docnotfound_mutates :
    (POSTmodel envC4 dbW).response = .err500 .DocumentNotFound ∧
    (POSTmodel envC4 dbW).db =
      [{ id := "d1", project_id := "p1", name := "Doc",
         status := "failed" }] ∧
    dbW = [{ id := "d1", project_id := "p1", name := "Doc",
             status := "pending" }] :=
  ⟨by decide, by decide, by decide⟩

/-- C4 amended: on the `DocumentNotFound` path the endpoint surfaces the
structured error immediately, but it first issues the
`status: "processing"` update filtered by `documentId` alone and its
failure handler then sets `status: "failed"` the same way; the final table
is the double update, so a document with that `id` under a different
project is mutated to `failed`.  Only when no row carries the `id` does
the table stay unchanged. -/
theorem POST_docnotfound_behavior (env : PostEnv) (db : List DocRow)
    (documentId projectId : String)
    (hkey : env.apiKeyPresent = true)
    (hids : env.ids = some (documentId, projectId))
    (hdoc : findDoc db documentId projectId = none) :
    (POSTmodel env db).response = .err500 .DocumentNotFound ∧
    (POSTmodel env db).db =
      setStatus (setStatus db documentId "processing") documentId "failed" ∧
    ((∀ r ∈ db, r.id ≠ documentId) → (POSTmodel env db).db = db) := by
  have hmodel : POSTmodel env db =
      { response := .err500 .DocumentNotFound,
        db := setStatus (setStatus db documentId "processing") documentId
          "failed",
        warnedOversized := false, embedInput := none } := by
    unfold POSTmodel
    rw [hkey, hids]
    dsimp only
    rw [hdoc]
    simp
  refine ⟨by rw [hmodel], by rw [hmodel], ?_⟩
  intro hnone
  rw [hmodel]
  have h1 : setStatus db documentId "processing" = db :=
    setStatus_not_present hnone _
  rw [h1, setStatus_not_present hnone]

/-- Witness for `POST_docnotfound_behavior`: a request for an id that no
row carries, so the table also stays unchanged. -/
theorem POST_docnotfound_behavior_witness :
    envC4.apiKeyPresent = true ∧
    (some ("d1", "p2") : Option (String × String)) = some ("d1", "p2") ∧
    findDoc dbW "d1" "p2" = none ∧
    ((POSTmodel envC4 dbW).response = .err500 .DocumentNotFound ∧
     (POSTmodel envC4 dbW).db =
       setStatus (setStatus dbW "d1" "processing") "d1" "failed" ∧
     ((∀ r ∈ dbW, r.id ≠ "d1") → (POSTmodel envC4 dbW).db = dbW)) :=
  ⟨rfl, rfl, by decide,
    POST_docnotfound_behavior envC4 dbW "d1" "p2" rfl rfl (by decide)⟩

/-- A single 501-character sentence: its chunk exceeds the hard 500-token
ceiling of the safety check under `charCount`. -/
def c3text : String := String.mk (List.replicate 501 'a')

/-- Environment for the C3 counterexample: extraction yields `c3text`,
classification is `UNKNOWN`, embedding succeeds. -/
def envC3 : PostEnv :=
  { apiKeyPresent := true, ids := some ("d1", "p1"),
    extractResult := .ok c3text, analysis := analysisUNKNOWN,
    tc := charCount, embed := fun chunks => .ok chunks.length }

/-- C3 counterexample: chunking produces a 501-token chunk, above the
hard 500-token ceiling of the safety check — yet the run does not abort:
the oversized chunk is passed to the embedding stage (`embedInput`
contains it), the run completes with the document `completed`, and the
only trace is the logged warning. -/
theorem POST_oversized_not_aborted :
    (POSTmodel envC3 dbW).warnedOversized = true ∧
    ((POSTmodel envC3 dbW).embedInput.map (fun l => l.map Chunk.tokens)) =
      some [501] ∧
    (POSTmodel envC3 dbW).response = .ok 1 501 ∧
    (POSTmodel envC3 dbW).db =
      [{ id := "d1", project_id := "p1", name := "Doc",
         status := "completed" }] :=
  ⟨by decide, by decide, by decide, by decide⟩

/-- C3 amended: the handler does not abort on an oversized chunk.  When
the run reaches the chunking stage and some produced chunk exceeds the
hard 500-token ceiling, the handler merely sets the warning flag
(`console.warn`, route.ts line 858) and passes the full chunk list —
oversized chunks included — to the embedding stage; there is no
`ChunkingInvariantViolation`-class failure. -/
theorem POST_warns_and_proceeds (env : PostEnv) (db : List DocRow)
    (documentId projectId : String) (document : DocRow)
    (textContent : String)
    (hkey : env.apiKeyPresent = true)
    (hids : env.ids = some (documentId, projectId))
    (hdoc : findDoc db documentId projectId = some document)
    (hext : env.extractResult = .ok textContent)
    (hne : ¬ trimJS textContent = "")
    (hlen : POSTchunks env document textContent ≠ [])
    (hover : ∃ c ∈ POSTchunks env document textContent, c.tokens > 500) :
    (POSTmodel env db).warnedOversized = true ∧
    (POSTmodel env db).embedInput =
      some (POSTchunks env document textContent) := by
  have hlen' : ¬ (POSTchunks env document textContent).length = 0 := by
    simpa [List.length_eq_zero] using hlen
  have hwarn : decide (((POSTchunks env document textContent).filter
      (fun c => decide (c.tokens > 500))).length > 0) = true := by
    obtain ⟨c, hcmem, hct⟩ := hover
    have hcf : c ∈ (POSTchunks env document textContent).filter
        (fun c => decide (c.tokens > 500)) :=
      List.mem_filter.mpr ⟨hcmem, by simpa using hct⟩
    simp only [decide_eq_true_eq]
    exact List.length_pos.mpr (List.ne_nil_of_mem hcf)
  unfold POSTmodel
  rw [hkey, hids]
  dsimp only
  rw [hdoc]
  dsimp only
  rw [hext]
  dsimp only
  rw [if_neg hne, if_neg hlen']
  rw [if_neg (by simp : ¬ (true = false))]
  cases hemb : env.embed (POSTchunks env document textContent) with
  | error m =>
    dsimp only
    exact ⟨hwarn, rfl⟩
  | ok n =>
    dsimp only
    exact ⟨hwarn, rfl⟩

/-- Witness for `POST_warns_and_proceeds` at the concrete oversized
run. -/
theorem POST_warns_and_proceeds_witness :
    envC3.apiKeyPresent = true ∧
    findDoc dbW "d1" "p1" =
      some { id := "d1", project_id := "p1", name := "Doc",
             status := "pending" } ∧
    ¬ trimJS c3text = "" ∧
    POSTchunks envC3
      { id := "d1", project_id := "p1", name := "Doc",
        status := "pending" } c3text ≠ [] ∧
    ((POSTmodel envC3 dbW).warnedOversized = true ∧
     (POSTmodel envC3 dbW).embedInput =
       some (POSTchunks envC3
         { id := "d1", project_id := "p1", name := "Doc",
           status := "pending" } c3text)) :=
  ⟨rfl, by decide, by decide, by decide,
    POST_warns_and_proceeds envC3 dbW "d1" "p1"
      { id := "d1", project_id := "p1", name := "Doc", status := "pending" }
      c3text rfl rfl (by decide) rfl (by decide) (by decide)
      ⟨{ content := c3text, context := "Document: Doc (UNKNOWN)",
         tokens := 501, semanticBoundary := "SENTENCE",
         chunkType := "UNKNOWN" }, by decide, by decide⟩⟩
